import Mathlib

/-!
# liboptparse: option declaration and command line parsing

A shallow embedding of `lib/include/options_parsing.h` and
`lib/src/options_parsing.cpp`.

* `std::string` is `List Char`; `s[i]` is `char_at s i`.
* `std::map<std::string, option_t>` is an association list that is only ever
  extended by a key that `find` did not locate, `std::set<option_t>` (ordered
  by `name`) is a list searched by name, and the `std::multimap` of results is
  the list of its pairs in insertion order.
* a `throw` is the `error` (or `throw`) alternative of a result, with one
  constructor per `throw` site of the source.
-/

namespace util

/-! ## Characters and strings -/

/-- The test `isalpha(ch) || isdigit(ch) || ch == '_'` (macro `IS_NAME`, which
`opt_parser_t::option` spells out at each use), in the "C" locale. -/
def IS_NAME (ch : Char) : Bool :=
  ch.isAlpha || ch.isDigit || ch == '_'

/-- The macro `IS_PREFIX(ch)`. -/
def IS_PREFIX (ch : Char) : Bool :=
  ch == '-' || ch == ':' || ch == '/' || ch == '+' || ch == '.'

/-- The read `s[i]` of a `std::string`: the character at `i`, and the null
character at `i == s.size()`. A read beyond that is outside the string; it is
given the null character as well (it only happens for `maybe_name[1]` of an
empty handle, where both outcomes of the test that reads it lead to the same
`std::out_of_range`). -/
def char_at (s : List Char) (i : Nat) : Char :=
  s.getD i (Char.ofNat 0)

/-! ## The properties of an option (`options_parsing.h`) -/

inductive Mod_Prop
  | NONE
  | BEFORE
  | AFTER
  | SUB
  | NOT_WITH
  deriving DecidableEq, Repr

inductive Num_Prop
  | ZERO_ONE
  | ZERO_MANY
  deriving DecidableEq, Repr

inductive Assign_Prop
  | NO_ASSIGN
  | EQ_REQUIRED
  | EQ_MAYBE
  | EQ_NEVER
  deriving DecidableEq, Repr

inductive Collect_Prop
  | SCALAR
  | LIST
  deriving DecidableEq, Repr

inductive Data_Prop
  | STRING
  | INTEGER
  | FLOAT
  deriving DecidableEq, Repr

/-- The struct `option_t`. -/
structure option_t where
  mod : Mod_Prop
  mod_arg : List Char
  number : Num_Prop
  assignment : Assign_Prop
  collection : Collect_Prop
  data_type : Data_Prop
  name : List Char
  deriving DecidableEq, Repr

/-- Modelled from the spec: the default constructor `option_t::option_t()` is
declared in the header and defined nowhere under `src/`. The defaults are the
`<nil>` alternatives of the header's grammar comments and of the spec: no
modifier, AT_MOST_ONE, FORBIDDEN assignment, SCALAR, STRING, empty strings. -/
def option_t.default : option_t :=
  { mod := .NONE, mod_arg := [], number := .ZERO_ONE, assignment := .NO_ASSIGN,
    collection := .SCALAR, data_type := .STRING, name := [] }

/-- The member `option_t::compatible`. -/
def option_t.compatible (a opt : option_t) : Bool :=
  decide (a.number = opt.number) && decide (a.assignment = opt.assignment)
    && decide (a.data_type = opt.data_type) && decide (a.collection = opt.collection)

/-! ## Failures -/

/-- The `throw option_language_error(...)` sites, named after their messages. -/
inductive Language_Error
  /-- "input ended before parsing finished" -/
  | input_ended_before_parsing_finished
  /-- "unimplemented modifier" -/
  | unimplemented_modifier
  /-- "expected ']' character" -/
  | expected_closing_bracket
  /-- "expected prefix or word character" -/
  | expected_prefix_or_word_character
  /-- "input ended before handle complete" (also spelled "hande") -/
  | input_ended_before_handle_complete
  /-- "invalid character for handle name: can only take word characters and '-'" -/
  | invalid_character_for_handle_name
  /-- "expected '=' or '[' after number" -/
  | expected_eq_or_bracket_after_number
  /-- "expected eq modifier or arg spec" -/
  | expected_eq_modifier_or_arg_spec
  /-- "expected arg type or start of arg list" -/
  | expected_arg_type_or_start_of_arg_list
  /-- "input ended in arg list" -/
  | input_ended_in_arg_list
  /-- "expected arg type or end of arg list" -/
  | expected_arg_type_or_end_of_arg_list
  /-- "input ended before arg list finished" -/
  | input_ended_before_arg_list_finished
  /-- "expected ']' to conclude arg list" -/
  | expected_bracket_to_conclude_arg_list
  /-- "input found after option spec parsed" -/
  | input_found_after_option_spec_parsed
  /-- "no handles found in option spec" -/
  | no_handles_found_in_option_spec
  /-- "handle minus prefix is the empty string" -/
  | handle_minus_prefix_is_the_empty_string
  /-- "handle repeated: " followed by the handle -/
  | handle_repeated (handle : List Char)
  /-- "options with same name must be compatible: " followed by the name -/
  | options_with_same_name_must_be_compatible (name : List Char)
  /-- "no subcommands declared" -/
  | no_subcommands_declared
  deriving DecidableEq, Repr

/-- The `throw parse_error(...)` sites, named after their messages. -/
inductive Parse_Error
  /-- "bsd-style options may not use a prefix" -/
  | bsd_style_options_may_not_use_prefixes
  /-- "all or none of the characters in the first argument must special" -/
  | all_or_none_must_be_special
  /-- "option repeated more than allowed" -/
  | option_repeated_more_than_allowed
  /-- "cannot assign to a bsd or merged option" -/
  | cannot_assign_to_a_bsd_or_merged_option
  /-- "special options may not take arguments" -/
  | special_options_may_not_take_arguments
  /-- "unknown option with handle: " followed by the token -/
  | unknown_option (handle : List Char)
  /-- "subcommand found after first argument" -/
  | subcommand_found_after_first_argument
  /-- "no-repeat option with handle '...' found more than once" -/
  | found_more_than_once (handle : List Char)
  /-- "option with handle '...' should not have an argument" -/
  | should_not_have_an_argument (handle : List Char)
  /-- "option with handle '...' is missing equals sign" -/
  | is_missing_equals_sign (handle : List Char)
  /-- "option with handle '...' missing an argument" -/
  | missing_an_argument (handle : List Char)
  /-- "option with handle '...' should not use an equals sign" -/
  | should_not_use_an_equals_sign (handle : List Char)
  /-- "data '...' is not an integer argument" -/
  | is_not_an_integer_argument (data : List Char)
  /-- "data '...' is not a float argument" -/
  | is_not_a_float_argument (data : List Char)
  /-- "handle repeated: " followed by the token -/
  | handle_repeated (handle : List Char)
  deriving DecidableEq, Repr

/-- What a call can throw: the two exception classes of the library, and the
`std::out_of_range` of `std::string::substr`. -/
inductive Failure
  | option_language_error (e : Language_Error)
  | parse_error (e : Parse_Error)
  | out_of_range
  deriving DecidableEq, Repr

deriving instance DecidableEq for Except

/-! ## The parser object -/

/-- The class `opt_parser` (here `opt_parser_t`): its two containers, its five settings and the
counter `mod_count` that `option` increments and `parse` tests. -/
structure opt_parser_t where
  handle_map : List (List Char × option_t)
  name_set : List option_t
  is_case_sensitive : Bool
  is_bsd_opt_enabled : Bool
  is_merged_opt_enabled : Bool
  is_error_unknown_enabled : Bool
  is_subcommand_enabled : Bool
  mod_count : Nat
  deriving DecidableEq, Repr

/-- Modelled from the spec: the constructor `opt_parser_t::opt_parser_t()` is
declared in the header and defined nowhere under `src/`. The settings get the
defaults that the doc comments of the `set` overloads give, the containers are
empty and no subcommand has been counted. -/
def opt_parser_t.new : opt_parser_t :=
  { handle_map := [], name_set := [], is_case_sensitive := true,
    is_bsd_opt_enabled := false, is_merged_opt_enabled := false,
    is_error_unknown_enabled := true, is_subcommand_enabled := false, mod_count := 0 }

/-- The call `handle_map.find(handle)`: the mapped option, `none` for `cend()`. -/
def map_find : List (List Char × option_t) → List Char → Option option_t
  | [], _ => none
  | (k, v) :: rest, handle => if k = handle then some v else map_find rest handle

/-- The call `name_set.find(opt)`: the set compares options by `name` alone. -/
def set_find : List option_t → List Char → Option option_t
  | [], _ => none
  | o :: rest, name => if o.name = name then some o else set_find rest name

/-- The member `opt_parser_t::empty`. -/
def opt_parser_t.empty (p : opt_parser_t) : Bool :=
  p.name_set.isEmpty

/-- The member `opt_parser_t::clear_options`. -/
def opt_parser_t.clear_options (p : opt_parser_t) : opt_parser_t :=
  { p with handle_map := [], name_set := [] }

/-- The member `opt_parser_t::handle_has_name`. -/
def opt_parser_t.handle_has_name (p : opt_parser_t) (handle name : List Char) : Bool :=
  match map_find p.handle_map handle with
  | none => false
  | some o => decide (name = o.name)

/-- The tags of `config_constants` that select an overload of `set`. -/
inductive Setting
  | case_sensitive
  | bsd_opt
  | merged_opt
  | error_unknown
  | sub
  deriving DecidableEq, Repr

/-- The five overloads of `opt_parser_t::set`. -/
def opt_parser_t.set (p : opt_parser_t) (c : Setting) (val : Bool) : opt_parser_t :=
  match c with
  | .case_sensitive =>
    if p.empty then { p with is_case_sensitive := val } else p
  | .bsd_opt =>
    if p.empty then
      let p1 := { p with is_bsd_opt_enabled := val }
      if val then { p1 with is_subcommand_enabled := false } else p1
    else p
  | .merged_opt =>
    if p.empty then
      let p1 := { p with is_merged_opt_enabled := val }
      if val then { p1 with is_subcommand_enabled := false } else p1
    else p
  | .error_unknown =>
    if p.empty then { p with is_error_unknown_enabled := val } else p
  | .sub =>
    if p.empty then
      let p1 := { p with is_subcommand_enabled := val }
      if val then { p1 with is_merged_opt_enabled := false, is_bsd_opt_enabled := false }
      else p1
    else p

/-- The value of the setting that the overload for `c` assigns. -/
def opt_parser_t.setting (p : opt_parser_t) (c : Setting) : Bool :=
  match c with
  | .case_sensitive => p.is_case_sensitive
  | .bsd_opt => p.is_bsd_opt_enabled
  | .merged_opt => p.is_merged_opt_enabled
  | .error_unknown => p.is_error_unknown_enabled
  | .sub => p.is_subcommand_enabled

/-! ## Declaring an option: `opt_parser::option` -/

/-- The enumeration `Option_State` local to `opt_parser::option`. -/
inductive Option_State
  | MOD
  | MOD_FN
  | MOD_ARG
  | MOD_END
  | NONE
  | PREFIX_END
  | PLUS_PREFIX
  | MINUS_PREFIX
  | NAME
  | NUMBER
  | EQ
  | ARG
  | ARGLIST
  | ARGLIST_END
  | DONE
  deriving DecidableEq, Repr

/-- The locals of `opt_parser::option` that live across iterations of its loop
(`state`, `opt`, `handles`, `buf`), and the member `mod_count`, which the loop
increments. The locals `index`, `ch`, `has_input` are the position in the
character list that `loop` walks. -/
structure Machine where
  state : Option_State
  opt : option_t
  handles : List (List Char)
  buf : List Char
  mod_count : Nat
  deriving DecidableEq, Repr

/-- The outcome of a piece of `opt_parser::option` before registration: a
value, or a `throw`, which keeps the value `mod_count` had by then. -/
inductive Run (α : Type)
  | done (a : α)
  | throw (e : Failure) (mod_count : Nat)
  deriving DecidableEq, Repr

/-- A `throw option_language_error(...)` inside the loop. -/
def Machine.fail {α : Type} (m : Machine) (e : Language_Error) : Run α :=
  .throw (.option_language_error e) m.mod_count

/-- The `case NONE:` of the switch; `none` is `!has_input`. -/
def exec_NONE (m : Machine) (input : Option Char) : Run Machine :=
  match input with
  | none => .done { m with state := .DONE }
  | some ch =>
    if ch = '/' ∨ ch = '.' ∨ ch = ':' then
      .done { m with state := .PREFIX_END, buf := m.buf ++ [ch] }
    else if ch = '+' then
      .done { m with state := .PLUS_PREFIX, buf := m.buf ++ [ch] }
    else if ch = '-' then
      .done { m with state := .MINUS_PREFIX, buf := m.buf ++ [ch] }
    else if IS_NAME ch then
      .done { m with state := .NAME, buf := m.buf ++ [ch] }
    else m.fail .expected_prefix_or_word_character

/-- The `case ARG:`-style choice of a data type letter, shared by the letters
`s`, `i`, `f` of the states EQ, ARG and ARGLIST. -/
def data_type_of (ch : Char) : Option Data_Prop :=
  if ch = 's' then some .STRING
  else if ch = 'i' then some .INTEGER
  else if ch = 'f' then some .FLOAT
  else none

/-- One iteration of the `while (true)` loop of `opt_parser::option`: the
switch on `state`, run on the character just read (`some ch`) or with
`has_input == false` (`none`). In state MOD a character other than `[` sets
`forward_char`, so the next iteration runs `case NONE:` on the same character;
the two iterations are taken together. The iteration of `case DONE:` without
input is the end of the loop (`finish`). -/
def exec (is_subcommand_enabled : Bool) (m : Machine) (input : Option Char) : Run Machine :=
  match m.state with
  | .MOD =>
    match input with
    | none => .done { m with state := .DONE }
    | some ch =>
      if ch = '[' then .done { m with state := .MOD_FN }
      else exec_NONE { m with state := .NONE } (some ch)
  | .MOD_FN =>
    match input with
    | none => m.fail .input_ended_before_parsing_finished
    | some ch =>
      if ch = '&' then
        if is_subcommand_enabled then
          .done { m with opt := { m.opt with mod := .SUB }, mod_count := m.mod_count + 1,
                         state := .MOD_END }
        else .done { m with state := .MOD_END }
      else if ch = '<' ∨ ch = '>' ∨ ch = '!' then m.fail .unimplemented_modifier
      else .done m
  | .MOD_ARG | .MOD_END =>
    match input with
    | none => m.fail .input_ended_before_parsing_finished
    | some ch =>
      if ch = ']' then .done { m with state := .NONE }
      else m.fail .expected_closing_bracket
  | .NONE => exec_NONE m input
  | .MINUS_PREFIX =>
    match input with
    | none => m.fail .input_ended_before_handle_complete
    | some ch =>
      if ch = '-' then .done { m with state := .PREFIX_END, buf := m.buf ++ [ch] }
      else if IS_NAME ch then .done { m with state := .NAME, buf := m.buf ++ [ch] }
      else m.fail .input_ended_before_handle_complete
  | .PLUS_PREFIX =>
    match input with
    | none => m.fail .input_ended_before_handle_complete
    | some ch =>
      if ch = '+' then .done { m with state := .PREFIX_END }
      else if IS_NAME ch then .done { m with state := .NAME }
      else m.fail .input_ended_before_handle_complete
  | .PREFIX_END =>
    match input with
    | none => m.fail .input_ended_before_handle_complete
    | some ch =>
      if IS_NAME ch then .done { m with buf := m.buf ++ [ch], state := .NAME }
      else m.fail .invalid_character_for_handle_name
  | .NAME =>
    match input with
    | none =>
      if m.buf ≠ [] then .done { m with handles := m.handles ++ [m.buf], buf := [], state := .DONE }
      else .done { m with state := .DONE }
    | some ch =>
      if ch = '|' then
        .done { m with handles := m.handles ++ [m.buf], buf := [], state := .NONE }
      else if ch = '=' then
        .done { m with handles := m.handles ++ [m.buf], buf := [], state := .EQ,
                       opt := { m.opt with assignment := .EQ_REQUIRED, collection := .SCALAR } }
      else if ch = '?' then
        .done { m with handles := m.handles ++ [m.buf], buf := [], state := .NUMBER,
                       opt := { m.opt with number := .ZERO_ONE } }
      else if ch = '*' then
        .done { m with handles := m.handles ++ [m.buf], buf := [], state := .NUMBER,
                       opt := { m.opt with number := .ZERO_MANY } }
      else if IS_NAME ch ∨ ch = '-' then .done { m with buf := m.buf ++ [ch] }
      else m.fail .invalid_character_for_handle_name
  | .NUMBER =>
    match input with
    | none => .done { m with state := .DONE }
    | some ch =>
      let m1 := { m with handles := m.handles ++ [m.buf], buf := [] }
      if ch = '=' then
        .done { m1 with state := .EQ,
                        opt := { m.opt with assignment := .EQ_REQUIRED, collection := .SCALAR } }
      else if ch = '[' then
        .done { m1 with state := .ARGLIST,
                        opt := { m.opt with assignment := .NO_ASSIGN, collection := .LIST } }
      else m1.fail .expected_eq_or_bracket_after_number
  | .EQ =>
    match input with
    | none => .done { m with state := .DONE }
    | some ch =>
      if ch = '?' then
        .done { m with opt := { m.opt with assignment := .EQ_MAYBE }, state := .ARG }
      else if ch = '!' then
        .done { m with opt := { m.opt with assignment := .EQ_NEVER }, state := .ARG }
      else if ch = '[' then
        .done { m with state := .ARGLIST,
                       opt := { m.opt with collection := .LIST, assignment := .EQ_REQUIRED } }
      else
        match data_type_of ch with
        | some t => .done { m with opt := { m.opt with data_type := t }, state := .DONE }
        | none => m.fail .expected_eq_modifier_or_arg_spec
  | .ARG =>
    match input with
    | none => .done { m with opt := { m.opt with data_type := .STRING }, state := .DONE }
    | some ch =>
      if ch = '[' then
        .done { m with state := .ARGLIST, opt := { m.opt with collection := .LIST } }
      else
        match data_type_of ch with
        | some t => .done { m with opt := { m.opt with data_type := t }, state := .DONE }
        | none => m.fail .expected_arg_type_or_start_of_arg_list
  | .ARGLIST =>
    match input with
    | none => m.fail .input_ended_in_arg_list
    | some ch =>
      match data_type_of ch with
      | some t => .done { m with opt := { m.opt with data_type := t }, state := .ARGLIST_END }
      | none =>
        if ch = ']' then
          .done { m with opt := { m.opt with data_type := .STRING }, state := .DONE }
        else m.fail .expected_arg_type_or_end_of_arg_list
  | .ARGLIST_END =>
    match input with
    | none => m.fail .input_ended_before_arg_list_finished
    | some ch =>
      if ch = ']' then .done { m with state := .DONE }
      else m.fail .expected_bracket_to_conclude_arg_list
  | .DONE =>
    match input with
    | some _ => m.fail .input_found_after_option_spec_parsed
    | none => .done m

/-- The loop of `opt_parser::option` over the characters of `spec`, up to the
iteration that enters `case DONE:` with `has_input == false`. After the last
character the iteration without input either throws or sets `state = DONE`. -/
def loop (is_subcommand_enabled : Bool) : Machine → List Char → Run Machine
  | m, [] => exec is_subcommand_enabled m none
  | m, ch :: rest =>
    match exec is_subcommand_enabled m (some ch) with
    | .throw e n => .throw e n
    | .done m1 => loop is_subcommand_enabled m1 rest

/-- The locals of `opt_parser::option` before the loop. -/
def Machine.start (mod_count : Nat) : Machine :=
  { state := .MOD, opt := option_t.default, handles := [], buf := [], mod_count := mod_count }

/-- The call `s.substr(ind)`: `std::out_of_range` when `ind > s.size()`. -/
def substr (s : List Char) (ind : Nat) : Except Failure (List Char) :=
  if ind > s.length then .error .out_of_range else .ok (s.drop ind)

/-- The derivation of `opt.name` in `case DONE:` for a non-empty `handles`:
from the last handle when `name` is empty, `name` itself otherwise. -/
def derive_name (handles : List (List Char)) (name : List Char) : Except Failure (List Char) :=
  if name = [] then
    let maybe_name := handles.getLastD []
    let ind : Nat :=
      if IS_NAME (char_at maybe_name 0) then 0
      else if IS_NAME (char_at maybe_name 1) then 1
      else 2
    if maybe_name.length = ind + 1 then
      .error (.option_language_error .handle_minus_prefix_is_the_empty_string)
    else substr maybe_name ind
  else .ok name

/-- The loop `for (const std::string handle : handles)` of the registration:
the handle map after it, and the handle whose repetition made it throw. -/
def insert_handles (opt : option_t) :
    List (List Char) → List (List Char × option_t) → List (List Char × option_t) × Option (List Char)
  | [], handle_map => (handle_map, none)
  | handle :: rest, handle_map =>
    match map_find handle_map handle with
    | none => insert_handles opt rest (handle_map ++ [(handle, opt)])
    | some _ => (handle_map, some handle)

/-- The end of `case DONE:`: the registration of `opt` under `handles`. -/
def register (p : opt_parser_t) (opt : option_t) (handles : List (List Char)) :
    Except Failure option_t × opt_parser_t :=
  match set_find p.name_set opt.name with
  | none =>
    let r := insert_handles opt handles p.handle_map
    let p1 := { p with name_set := p.name_set ++ [opt], handle_map := r.1 }
    match r.2 with
    | none => (.ok opt, p1)
    | some handle => (.error (.option_language_error (.handle_repeated handle)), p1)
  | some found =>
    if opt.compatible found then
      let r := insert_handles opt handles p.handle_map
      let p1 := { p with handle_map := r.1 }
      match r.2 with
      | none => (.ok opt, p1)
      | some handle => (.error (.option_language_error (.handle_repeated handle)), p1)
    else (.error (.option_language_error (.options_with_same_name_must_be_compatible opt.name)), p)

/-- The state machine and the name derivation of `opt_parser::option`, before
the registration: the option and its handles, or the failure. -/
def compile (is_subcommand_enabled : Bool) (mod_count : Nat) (spec name : List Char) :
    Run (option_t × List (List Char) × Nat) :=
  match loop is_subcommand_enabled (Machine.start mod_count) spec with
  | .throw e n => .throw e n
  | .done m =>
    if m.handles.isEmpty then
      .throw (.option_language_error .no_handles_found_in_option_spec) m.mod_count
    else
      match derive_name m.handles name with
      | .error e => .throw e m.mod_count
      | .ok n => .done ({ m.opt with name := n }, m.handles, m.mod_count)

/-- The member `opt_parser::option(spec, name)`: what it returns or throws, and
the parser after the call. -/
def opt_parser_t.option (p : opt_parser_t) (spec name : List Char) :
    Except Failure option_t × opt_parser_t :=
  match compile p.is_subcommand_enabled p.mod_count spec name with
  | .throw e n => (.error e, { p with mod_count := n })
  | .done (opt, handles, n) => register { p with mod_count := n } opt handles

/-! ## The result of parsing: `opt_info` -/

/-- The class `opt_info`: the non-options `rem` and the multimap `opt_data`,
whose pairs are kept in insertion order (pairs of one key are enumerated by the
multimap in that order). -/
structure opt_info where
  rem : List (List Char)
  opt_data : List (List Char × List Char)
  deriving DecidableEq, Repr

/-- The call `opt_data.find(name)`: the first value stored under `name`. -/
def data_find : List (List Char × List Char) → List Char → Option (List Char)
  | [], _ => none
  | (k, v) :: rest, name => if k = name then some v else data_find rest name

/-- The member `opt_info::has`. -/
def opt_info.has (info : opt_info) (name : List Char) : Bool :=
  (data_find info.opt_data name).isSome

/-- The member `opt_info::arg(name, d)`. -/
def opt_info.arg (info : opt_info) (name : List Char) (d : List Char) : List Char :=
  match data_find info.opt_data name with
  | none => d
  | some v => v

/-- The call `s.find_first_of(ch)`: `none` is `std::string::npos`. -/
def find_first_of : List Char → Char → Option Nat
  | [], _ => none
  | c :: rest, ch => if c = ch then some 0 else (find_first_of rest ch).map (fun n => n + 1)

/-- The constant `default_data` of `parse`. -/
def default_data : List Char := ['1']

/-- The states `START, PRE, DOT, POST` of the float check in `parse`. -/
inductive Float_State
  | START
  | PRE
  | DOT
  | POST
  deriving DecidableEq, Repr

/-- The loop `for (const char& ch : args)` of the float check, from the state
`state` on; `break` leaves the state as it is. -/
def float_scan : Float_State → List Char → Float_State
  | state, [] => state
  | state, ch :: rest =>
    if ch.isDigit ∧ state = .START then float_scan .PRE rest
    else if ch.isDigit ∧ state = .DOT then float_scan .POST rest
    else if ch = '.' ∧ state = .PRE then float_scan .DOT rest
    else if ch.isDigit ∧ state = .POST then float_scan state rest
    else state

/-- The loop `for (const char& ch : args)` of the integer check: the value of
`parse_failed` after it is the negation of this. -/
def all_digits (args : List Char) : Bool :=
  args.all Char.isDigit

/-- The sequence of strings that `while (std::getline(src, data, ','))` reads
from a stream holding `src`, `data` being the characters extracted so far by
the running call: a call that meets the end of the stream without having
extracted a character fails and ends the loop. -/
def getline_loop : List Char → List Char → List (List Char)
  | data, [] => if data = [] then [] else [data]
  | data, ch :: rest =>
    if ch = ',' then data :: getline_loop [] rest else getline_loop (data ++ [ch]) rest

/-- The body of the `while (std::getline(...))` loop over the pieces of a LIST
argument; `state` is the float state, which `parse` declares before the loop. -/
def store_list (opt : option_t) (args : List Char) :
    List (List Char) → Float_State → List (List Char × List Char) →
      Except Failure (List (List Char × List Char))
  | [], _, opt_data => .ok opt_data
  | data :: rest, state, opt_data =>
    match opt.data_type with
    | .STRING => store_list opt args rest state (opt_data ++ [(opt.name, data)])
    | .INTEGER =>
      if all_digits data then store_list opt args rest state (opt_data ++ [(opt.name, data)])
      else .error (.parse_error (.is_not_an_integer_argument args))
    | .FLOAT =>
      let state1 := float_scan state data
      if state1 ≠ .PRE ∧ state1 ≠ .POST then
        .error (.parse_error (.is_not_a_float_argument data))
      else store_list opt args rest state1 (opt_data ++ [(opt.name, data)])

/-- The check and storage of the argument `args` of the option `opt` found
under the token `handle` (from `bool parse_failed(false);` to the end of the
loop body of `parse`). -/
def store (opt : option_t) (handle args : List Char) (info : opt_info) : Except Failure opt_info :=
  match opt.collection with
  | .SCALAR =>
    if data_find info.opt_data opt.name = none then
      match opt.data_type with
      | .STRING => .ok { info with opt_data := info.opt_data ++ [(opt.name, args)] }
      | .INTEGER =>
        if all_digits args then .ok { info with opt_data := info.opt_data ++ [(opt.name, args)] }
        else .error (.parse_error (.is_not_an_integer_argument args))
      | .FLOAT =>
        let state := float_scan .START args
        if state ≠ .PRE ∧ state ≠ .POST then
          .error (.parse_error (.is_not_a_float_argument args))
        else .ok { info with opt_data := info.opt_data ++ [(opt.name, args)] }
    else .error (.parse_error (.handle_repeated handle))
  | .LIST =>
    match store_list opt args (getline_loop [] args) .START info.opt_data with
    | .error e => .error e
    | .ok opt_data => .ok { info with opt_data := opt_data }

/-- The loop `while (j < 2 && !prefix_done)` in the first iteration of the
loop over the characters of the first token (later iterations do not enter
it): the index `j` it leaves, at most 2, or the throw for a bsd-style token.
The characters it reads are at positions up to `handle.size()`. -/
def skip_prefix_chars (is_merged_opt_enabled : Bool) (handle : List Char) : Except Failure Nat :=
  if !IS_PREFIX (char_at handle 0) then .ok 0
  else if !is_merged_opt_enabled then
    .error (.parse_error .bsd_style_options_may_not_use_prefixes)
  else if !IS_PREFIX (char_at handle 1) then .ok 1
  else .ok 2

/-- The tests of the characters of the first token, after the prefix: the
flag `accepted_first_special` and `info.opt_data` when the loop ends or
breaks. The copy `opt = iter->second` made before the test of `iter` is not
used when `iter` is `cend()` and is left out. -/
def decode_chars (p : opt_parser_t) :
    List Char → Bool → List (List Char × List Char) →
      Except Failure (Bool × List (List Char × List Char))
  | [], accepted_first_special, opt_data => .ok (accepted_first_special, opt_data)
  | ch :: rest, accepted_first_special, opt_data =>
    let mini_handle := if p.is_case_sensitive then ch else ch.toLower
    match map_find p.handle_map [mini_handle] with
    | none =>
      if accepted_first_special then .error (.parse_error .all_or_none_must_be_special)
      else .ok (accepted_first_special, opt_data)
    | some opt =>
      if opt.assignment = .NO_ASSIGN then
        if opt.number = .ZERO_ONE ∧ data_find opt_data opt.name ≠ none then
          .error (.parse_error .option_repeated_more_than_allowed)
        else decode_chars p rest true (opt_data ++ [(opt.name, default_data)])
      else .error (.parse_error .cannot_assign_to_a_bsd_or_merged_option)

/-- The loop `for (int j = 0; j < handle.size(); ++j)` over the first token in
bsd or merged mode: the first iteration tests the character at the index that
`skip_prefix_chars` leaves, the next ones the characters after it. -/
def decode_first (p : opt_parser_t) (handle : List Char) (opt_data : List (List Char × List Char)) :
    Except Failure (Bool × List (List Char × List Char)) :=
  if handle = [] then .ok (false, opt_data)
  else
    match skip_prefix_chars p.is_merged_opt_enabled handle with
    | .error e => .error e
    | .ok j => decode_chars p (char_at handle j :: handle.drop (j + 1)) false opt_data

/-- What the part of the loop body of `parse` under `// get the handle`
leaves: a `continue` after a decoded first token, or the iterator `iter`. -/
inductive Lookup
  | continue_with (opt_data : List (List Char × List Char))
  | iter (found : Option option_t)
  deriving Repr

/-- The part of the loop body of `parse` under `// get the handle`, for the
token `handle` at index `i`. -/
def get_handle (p : opt_parser_t) (i : Nat) (handle : List Char) (eq_loc : Option Nat)
    (info : opt_info) : Except Failure Lookup :=
  match eq_loc with
  | none =>
    if i = 0 ∧ (p.is_bsd_opt_enabled ∨ p.is_merged_opt_enabled) then
      match decode_first p handle info.opt_data with
      | .error e => .error e
      | .ok (accepted_first_special, opt_data) =>
        if accepted_first_special then .ok (.continue_with opt_data)
        else .ok (.iter (map_find p.handle_map handle))
    else .ok (.iter (map_find p.handle_map handle))
  | some loc =>
    if i = 0 ∧ (p.is_subcommand_enabled ∨ p.is_bsd_opt_enabled ∨ p.is_merged_opt_enabled) then
      .error (.parse_error .special_options_may_not_take_arguments)
    else .ok (.iter (map_find p.handle_map (handle.take loc)))

/-- The loop `for (int i = 0; i < argc; ++i)` of `parse` from index `i` on,
over the tokens `argv[i], ..., argv[argc - 1]`. -/
def parse_loop (p : opt_parser_t) : Nat → List (List Char) → opt_info → Except Failure opt_info
  | _, [], info => .ok info
  | i, handle :: rest, info =>
    let eq_loc := find_first_of handle '='
    match get_handle p i handle eq_loc info with
    | .error e => .error e
    | .ok (.continue_with opt_data) => parse_loop p (i + 1) rest { info with opt_data := opt_data }
    | .ok (.iter none) =>
      if IS_PREFIX (char_at handle 0) ∧ p.is_error_unknown_enabled then
        .error (.parse_error (.unknown_option handle))
      else parse_loop p (i + 1) rest { info with rem := info.rem ++ [handle] }
    | .ok (.iter (some opt)) =>
      if i ≠ 0 ∧ opt.mod = .SUB then
        .error (.parse_error .subcommand_found_after_first_argument)
      else if opt.number = .ZERO_ONE ∧ data_find info.opt_data opt.name ≠ none then
        .error (.parse_error (.found_more_than_once handle))
      else
        match opt.assignment, eq_loc with
        | .NO_ASSIGN, none =>
          parse_loop p (i + 1) rest
            { info with opt_data := info.opt_data ++ [(opt.name, default_data)] }
        | .NO_ASSIGN, some _ => .error (.parse_error (.should_not_have_an_argument handle))
        | .EQ_REQUIRED, none => .error (.parse_error (.is_missing_equals_sign handle))
        | .EQ_REQUIRED, some loc =>
          match store opt handle (handle.drop (loc + 1)) info with
          | .error e => .error e
          | .ok info1 => parse_loop p (i + 1) rest info1
        | .EQ_MAYBE, none =>
          match rest with
          | [] => .error (.parse_error (.missing_an_argument handle))
          | args :: rest1 =>
            match store opt handle args info with
            | .error e => .error e
            | .ok info1 => parse_loop p (i + 2) rest1 info1
        | .EQ_MAYBE, some loc =>
          match store opt handle (handle.drop (loc + 1)) info with
          | .error e => .error e
          | .ok info1 => parse_loop p (i + 1) rest info1
        | .EQ_NEVER, none =>
          match rest with
          | [] => .error (.parse_error (.missing_an_argument handle))
          | args :: rest1 =>
            match store opt handle args info with
            | .error e => .error e
            | .ok info1 => parse_loop p (i + 2) rest1 info1
        | .EQ_NEVER, some _ => .error (.parse_error (.should_not_use_an_equals_sign handle))

/-- The member `opt_parser::parse(argv, argc)`, `argv` being the list of the
`argc` tokens. -/
def opt_parser_t.parse (p : opt_parser_t) (argv : List (List Char)) : Except Failure opt_info :=
  if p.is_subcommand_enabled ∧ p.mod_count = 0 then
    .error (.option_language_error .no_subcommands_declared)
  else parse_loop p 0 argv { rem := [], opt_data := [] }

/-! ## Example parsers and the notions used in the statements -/

/-- A string literal as a `std::string`. -/
def str (s : String) : List Char := s.toList

/-- The parser after the call `option(spec)` (empty explicit name). -/
def declare (p : opt_parser_t) (spec : String) : opt_parser_t :=
  (p.option (str spec) []).2

/-- The parser of `t/20-option-assignment.cpp` after its four declarations. -/
def parser_t20 : opt_parser_t :=
  declare (declare (declare (declare opt_parser_t.new "-humanity=s") "-age=?i") "--is-stupid")
    "-wife=!s"

/-- The part of a token that `parse` looks up in the handle map: the token up
to its first `=`, the whole token when it has none. -/
def handle_part (token : List Char) : List Char :=
  match find_first_of token '=' with
  | none => token
  | some loc => token.take loc

/-- Whether the option `opt`, matched by `token`, takes the following token as
its value: the token has no `=` and the assignment is EQ_MAYBE or EQ_NEVER. -/
def takes_following (opt : option_t) (token : List Char) : Bool :=
  decide (find_first_of token '=' = none)
    && (decide (opt.assignment = .EQ_MAYBE) || decide (opt.assignment = .EQ_NEVER))

/-- Following the spec's words: the tokens that are neither matched as a
registered handle nor consumed as the following-token value of an option. -/
def positional (p : opt_parser_t) : List (List Char) → List (List Char)
  | [] => []
  | [token] =>
    match map_find p.handle_map (handle_part token) with
    | none => [token]
    | some _ => []
  | token :: value :: rest =>
    match map_find p.handle_map (handle_part token) with
    | none => token :: positional p (value :: rest)
    | some opt =>
      if takes_following opt token then positional p rest
      else positional p (value :: rest)

/-- The tokens of `t/20-option-assignment.cpp`. -/
def argv_t20 : List (List Char) :=
  [str "data", str "-wife", str "ellen", str "-age=42", str "other", str "-humanity=yes",
   str "finally"]

/-- The result of `parse` on the tokens of `t/20-option-assignment.cpp`. -/
def info_t20 : opt_info :=
  { rem := [str "data", str "other", str "finally"],
    opt_data := [(str "wife", str "ellen"), (str "age", str "42"), (str "humanity", str "yes")] }

/-- The properties that the loop has not touched yet, in a state that a handle
character can be read in. -/
def Machine.plain (m : Machine) : Prop :=
  m.opt.number = .ZERO_ONE ∧ m.opt.assignment = .NO_ASSIGN ∧ m.opt.collection = .SCALAR ∧
    m.opt.data_type = .STRING ∧
    (m.state = .MOD ∨ m.state = .NONE ∨ m.state = .MINUS_PREFIX ∨ m.state = .PLUS_PREFIX ∨
      m.state = .PREFIX_END ∨ m.state = .NAME)

instance (m : Machine) : Decidable m.plain := by
  unfold Machine.plain
  infer_instance

/-- The parser after the declaration `-age=?i`. -/
def parser_age : opt_parser_t :=
  declare opt_parser_t.new "-age=?i"

/-- The parser after the declaration `-aa`. -/
def parser_aa : opt_parser_t :=
  declare opt_parser_t.new "-aa"

/-! ## The body of the loop of `parse`, and the parsers a program can build -/

/-- The part of the loop body of `parse` under `// handle seems to be an
option`, for the option `opt` that the token `handle` at index `i` resolves
to; `eq_loc` is the position of the first `=` of the token and `next` the
token after it (`none` when `++i < argc` fails). The result is the throw, or
`info` after the body and whether the body has taken `next` as the argument. -/
def option_step (opt : option_t) (i : Nat) (handle : List Char) (eq_loc : Option Nat)
    (next : Option (List Char)) (info : opt_info) : Except Failure (Bool × opt_info) :=
  if i ≠ 0 ∧ opt.mod = .SUB then
    .error (.parse_error .subcommand_found_after_first_argument)
  else if opt.number = .ZERO_ONE ∧ data_find info.opt_data opt.name ≠ none then
    .error (.parse_error (.found_more_than_once handle))
  else
    match opt.assignment, eq_loc with
    | .NO_ASSIGN, none =>
      .ok (false, { info with opt_data := info.opt_data ++ [(opt.name, default_data)] })
    | .NO_ASSIGN, some _ => .error (.parse_error (.should_not_have_an_argument handle))
    | .EQ_REQUIRED, none => .error (.parse_error (.is_missing_equals_sign handle))
    | .EQ_REQUIRED, some loc =>
      match store opt handle (handle.drop (loc + 1)) info with
      | .error e => .error e
      | .ok info1 => .ok (false, info1)
    | .EQ_MAYBE, none =>
      match next with
      | none => .error (.parse_error (.missing_an_argument handle))
      | some args =>
        match store opt handle args info with
        | .error e => .error e
        | .ok info1 => .ok (true, info1)
    | .EQ_MAYBE, some loc =>
      match store opt handle (handle.drop (loc + 1)) info with
      | .error e => .error e
      | .ok info1 => .ok (false, info1)
    | .EQ_NEVER, none =>
      match next with
      | none => .error (.parse_error (.missing_an_argument handle))
      | some args =>
        match store opt handle args info with
        | .error e => .error e
        | .ok info1 => .ok (true, info1)
    | .EQ_NEVER, some _ => .error (.parse_error (.should_not_use_an_equals_sign handle))

/-- The body of the loop of `parse` for the token `handle` at index `i`,
`next` being the token after it (`none` when there is none): the throw, or
`info` after the body and whether the body has taken `next` as the
argument. The loop then goes on after the token, or after `next`
(`parse_loop_cons`). -/
def token_step (p : opt_parser_t) (i : Nat) (handle : List Char) (next : Option (List Char))
    (info : opt_info) : Except Failure (Bool × opt_info) :=
  match get_handle p i handle (find_first_of handle '=') info with
  | .error e => .error e
  | .ok (.continue_with opt_data) => .ok (false, { info with opt_data := opt_data })
  | .ok (.iter none) =>
    if IS_PREFIX (char_at handle 0) ∧ p.is_error_unknown_enabled then
      .error (.parse_error (.unknown_option handle))
    else .ok (false, { info with rem := info.rem ++ [handle] })
  | .ok (.iter (some opt)) => option_step opt i handle (find_first_of handle '=') next info

/-- The new parser after `set(sub, true)`. -/
def parser_sub : opt_parser_t :=
  opt_parser_t.new.set .sub true

/-- The parser in subcommand mode after the declaration `[&]deploy`. -/
def parser_deploy : opt_parser_t :=
  (parser_sub.option (str "[&]deploy") []).2

/-- The parser after the declaration `--nums=[i]`. -/
def parser_nums : opt_parser_t :=
  declare opt_parser_t.new "--nums=[i]"

/-- The parsers that a program can build: the new parser, and a parser after a
call of `set`, `option` (returning or throwing) or `clear_options`. -/
inductive Reachable : opt_parser_t → Prop
  | new : Reachable opt_parser_t.new
  | set (p : opt_parser_t) (c : Setting) (val : Bool) : Reachable p → Reachable (p.set c val)
  | option (p : opt_parser_t) (spec name : List Char) :
      Reachable p → Reachable (p.option spec name).2
  | clear_options (p : opt_parser_t) : Reachable p → Reachable p.clear_options

/-! ## More example parsers -/

/-- The parser after the declarations `-ratio=f` and `--vals=[f]`. -/
def parser_float : opt_parser_t :=
  declare (declare opt_parser_t.new "-ratio=f") "--vals=[f]"

/-- The parser `p` after the declarations `a` (name `all`), `b` (name `bee`)
and `n=!s` (name `num`): two flags and an option that takes a value, each
under a handle of one character. -/
def with_flags (p : opt_parser_t) : opt_parser_t :=
  (((p.option (str "a") (str "all")).2.option (str "b") (str "bee")).2.option (str "n=!s")
    (str "num")).2

/-- The parser in bsd mode with the flags `a`, `b` and the option `n`. -/
def parser_bsd : opt_parser_t :=
  with_flags (opt_parser_t.new.set .bsd_opt true)

/-- The parser in merged mode with the flags `a`, `b` and the option `n`. -/
def parser_merged : opt_parser_t :=
  with_flags (opt_parser_t.new.set .merged_opt true)

/-- The parser in standard mode with the flags `a`, `b` and the option `n`. -/
def parser_flags : opt_parser_t :=
  with_flags opt_parser_t.new


/-! ## The invariant of the registry -/

/-- The invariant of the two containers: the name set holds one option of a
name, every option of the handle map has its name in the name set, and it is
compatible with the option of that name there. -/
def registry_ok (handle_map : List (List Char × option_t)) (name_set : List option_t) : Prop :=
  (∀ e1 ∈ name_set, ∀ e2 ∈ name_set, e1.name = e2.name → e1 = e2) ∧
  (∀ kd ∈ handle_map, ∃ e ∈ name_set, e.name = kd.2.name) ∧
  (∀ kd ∈ handle_map, ∀ e ∈ name_set, e.name = kd.2.name → kd.2.compatible e = true)

/-! ## The pieces of a LIST argument -/

/-- The lookup that the tests of the characters of the first token make for
the character `ch`: the character, in lower case when the parser is not case
sensitive, as a key of the handle map. -/
def flag_lookup (p : opt_parser_t) (ch : Char) : Option option_t :=
  map_find p.handle_map [if p.is_case_sensitive then ch else ch.toLower]

/-- C3 (code at the failing input): the spec `+abc` with an empty explicit name
compiles, and the name it gets is `bc`, not `abc`: state PLUS_PREFIX does not
put the character after `+` into the handle. The spec `+ab` does not compile
at all, while `-abc`, `:abc` and `-w|--wife` get the names `abc`, `abc`, `wife`. -/
theorem plus_prefix_name_drops_a_character :
    (opt_parser_t.new.option (str "+abc") []).1
        = .ok { option_t.default with name := str "bc" } ∧
    (opt_parser_t.new.option (str "+ab") []).1
        = .error (.option_language_error .handle_minus_prefix_is_the_empty_string) ∧
    (opt_parser_t.new.option (str "-abc") []).1
        = .ok { option_t.default with name := str "abc" } ∧
    (opt_parser_t.new.option (str ":abc") []).1
        = .ok { option_t.default with name := str "abc" } ∧
    (opt_parser_t.new.option (str "-w|--wife") []).1
        = .ok { option_t.default with name := str "wife" } := by
  decide!

/-- C4 (code at the failing input): with an empty explicit name the specs `-w`,
`--a` and `a`, whose last handle is a prefix and one word character, do not
compile: each throws "handle minus prefix is the empty string". -/
theorem one_character_name_is_rejected :
    (opt_parser_t.new.option (str "-w") []).1
        = .error (.option_language_error .handle_minus_prefix_is_the_empty_string) ∧
    (opt_parser_t.new.option (str "--a") []).1
        = .error (.option_language_error .handle_minus_prefix_is_the_empty_string) ∧
    (opt_parser_t.new.option (str "a") []).1
        = .error (.option_language_error .handle_minus_prefix_is_the_empty_string) := by
  decide!

/-- C5 (code at the failing input): with an empty explicit name the specs
`--count*[i]`, `-age*=i` and `-age?=i` do not compile: state NUMBER pushes the
emptied buffer as a second handle, the name is derived from that empty handle
and `substr` throws `std::out_of_range`. -/
theorem number_then_assign_spec_is_out_of_range :
    (opt_parser_t.new.option (str "--count*[i]") []).1 = .error .out_of_range ∧
    (opt_parser_t.new.option (str "-age*=i") []).1 = .error .out_of_range ∧
    (opt_parser_t.new.option (str "-age?=i") []).1 = .error .out_of_range := by
  decide!

/-- C6 (code at the failing input): the successful declaration `+abc` adds the
key `+bc` and not the written handle `+abc`; the successful declaration
`-age*=i` with the explicit name `age` adds the written handle `-age` and the
empty string. -/
theorem handle_map_keys_differ_from_written_handles :
    (opt_parser_t.new.option (str "+abc") []).1
        = .ok { option_t.default with name := str "bc" } ∧
    (opt_parser_t.new.option (str "+abc") []).2.handle_map.map Prod.fst = [str "+bc"] ∧
    (opt_parser_t.new.option (str "+abc") []).2.handle_has_name (str "+abc") (str "bc") = false ∧
    ((opt_parser_t.new.option (str "-age*=i") (str "age")).1).toOption.isSome = true ∧
    (opt_parser_t.new.option (str "-age*=i") (str "age")).2.handle_map.map Prod.fst
        = [str "-age", []] ∧
    (opt_parser_t.new.option (str "-age*=i") (str "age")).2.handle_has_name [] (str "age")
        = true := by
  decide!

/-- C10: when the parser is not empty, a call of `set` leaves the five settings
as they were, whatever the setting and the value; when it is empty, the
setting named in the call has the value given afterwards. -/
theorem set_frozen_unless_empty (p : opt_parser_t) (c : Setting) (val : Bool) :
    (p.empty = false →
      (p.set c val).is_case_sensitive = p.is_case_sensitive ∧
      (p.set c val).is_bsd_opt_enabled = p.is_bsd_opt_enabled ∧
      (p.set c val).is_merged_opt_enabled = p.is_merged_opt_enabled ∧
      (p.set c val).is_error_unknown_enabled = p.is_error_unknown_enabled ∧
      (p.set c val).is_subcommand_enabled = p.is_subcommand_enabled) ∧
    (p.empty = true → (p.set c val).setting c = val) := by
  constructor
  · intro h
    cases c <;> simp [opt_parser_t.set, h]
  · intro h
    cases c <;> cases val <;> simp [opt_parser_t.set, opt_parser_t.setting, h]

/-- C10 at concrete parsers: `parser_t20` holds four options and ignores
`set(sub, true)`; the new parser is empty and takes it. -/
theorem set_frozen_unless_empty_witness :
    parser_t20.empty = false ∧
    (parser_t20.set .sub true).is_subcommand_enabled = parser_t20.is_subcommand_enabled ∧
    opt_parser_t.new.empty = true ∧
    (opt_parser_t.new.set .sub true).setting .sub = true :=
  ⟨by decide!,
   ((set_frozen_unless_empty parser_t20 .sub true).1 (by decide!)).2.2.2.2,
   by decide!,
   (set_frozen_unless_empty opt_parser_t.new .sub true).2 (by decide!)⟩

/-! ### The non-options of a parse (C1) -/

theorem store_rem {opt : option_t} {handle args : List Char} {info info1 : opt_info}
    (h : store opt handle args info = .ok info1) : info1.rem = info.rem := by
  unfold store at h
  split at h
  · split at h
    · split at h
      · cases h; rfl
      · split at h
        · cases h; rfl
        · cases h
      · dsimp only at h
        split at h
        · cases h
        · cases h; rfl
    · cases h
  · split at h
    · cases h
    · cases h; rfl

theorem get_handle_standard (p : opt_parser_t) (hb : p.is_bsd_opt_enabled = false)
    (hm : p.is_merged_opt_enabled = false) (hs : p.is_subcommand_enabled = false)
    (i : Nat) (handle : List Char) (info : opt_info) :
    get_handle p i handle (find_first_of handle '=') info
      = .ok (.iter (map_find p.handle_map (handle_part handle))) := by
  unfold get_handle handle_part
  cases find_first_of handle '=' <;> simp [hb, hm, hs]

theorem positional_sublist (p : opt_parser_t) :
    ∀ n (tokens : List (List Char)), tokens.length ≤ n → (positional p tokens).Sublist tokens := by
  intro n
  induction n with
  | zero =>
    intro tokens h
    cases tokens with
    | nil => simp [positional]
    | cons t r => simp at h
  | succ n ih =>
    intro tokens h
    match tokens, h with
    | [], _ => simp [positional]
    | [t], _ =>
      unfold positional
      split <;> simp
    | t :: v :: r, h =>
      have hr : (v :: r).length ≤ n := by simpa using h
      have hr1 : r.length ≤ n := by simp at hr; omega
      unfold positional
      split
      · exact (ih _ hr).cons₂ t
      · split
        · exact ((ih r hr1).cons v).cons t
        · exact (ih _ hr).cons t

theorem positional_cons_none {p : opt_parser_t} {t : List Char} (r : List (List Char))
    (h : map_find p.handle_map (handle_part t) = none) :
    positional p (t :: r) = t :: positional p r := by
  cases r <;> simp [positional, h]

theorem positional_cons_keep {p : opt_parser_t} {t : List Char} {opt : option_t}
    (r : List (List Char)) (h : map_find p.handle_map (handle_part t) = some opt)
    (hk : takes_following opt t = false) :
    positional p (t :: r) = positional p r := by
  cases r <;> simp [positional, h, hk]

theorem positional_cons_take {p : opt_parser_t} {t : List Char} {opt : option_t}
    (v : List Char) (r : List (List Char)) (h : map_find p.handle_map (handle_part t) = some opt)
    (hk : takes_following opt t = true) :
    positional p (t :: v :: r) = positional p r := by
  simp [positional, h, hk]

theorem parse_loop_rem (p : opt_parser_t) (hb : p.is_bsd_opt_enabled = false)
    (hm : p.is_merged_opt_enabled = false) (hs : p.is_subcommand_enabled = false) :
    ∀ n (tokens : List (List Char)), tokens.length ≤ n → ∀ (i : Nat) (info info1 : opt_info),
      parse_loop p i tokens info = .ok info1 → info1.rem = info.rem ++ positional p tokens := by
  intro n
  induction n with
  | zero =>
    intro tokens h i info info1 hp
    cases tokens with
    | nil => simp [parse_loop] at hp; subst hp; simp [positional]
    | cons t r => simp at h
  | succ n ih =>
    intro tokens h i info info1 hp
    cases tokens with
    | nil => simp [parse_loop] at hp; subst hp; simp [positional]
    | cons t r =>
      have hr : r.length ≤ n := by simpa using h
      unfold parse_loop at hp
      simp only [get_handle_standard p hb hm hs] at hp
      cases hfind : map_find p.handle_map (handle_part t) with
      | none =>
        simp only [hfind] at hp
        split at hp
        · cases hp
        · rw [ih r hr _ _ _ hp, positional_cons_none r hfind]
          simp
      | some opt =>
        simp only [hfind] at hp
        split at hp
        · cases hp
        · split at hp
          · cases hp
          · cases ha : opt.assignment <;> cases he : find_first_of t '=' <;>
              simp only [ha, he] at hp
            · rw [ih r hr _ _ _ hp, positional_cons_keep r hfind (by simp [takes_following, ha])]
            · cases hp
            · cases hp
            · split at hp
              · cases hp
              · rename_i info2 hst
                rw [ih r hr _ _ _ hp, store_rem hst,
                  positional_cons_keep r hfind (by simp [takes_following, ha, he])]
            · cases r with
              | nil => cases hp
              | cons v r1 =>
                have hr1 : r1.length ≤ n := by simp at hr; omega
                simp only at hp
                split at hp
                · cases hp
                · rename_i info2 hst
                  rw [ih r1 hr1 _ _ _ hp, store_rem hst,
                    positional_cons_take v r1 hfind (by simp [takes_following, ha, he])]
            · split at hp
              · cases hp
              · rename_i info2 hst
                rw [ih r hr _ _ _ hp, store_rem hst,
                  positional_cons_keep r hfind (by simp [takes_following, ha, he])]
            · cases r with
              | nil => cases hp
              | cons v r1 =>
                have hr1 : r1.length ≤ n := by simp at hr; omega
                simp only at hp
                split at hp
                · cases hp
                · rename_i info2 hst
                  rw [ih r1 hr1 _ _ _ hp, store_rem hst,
                    positional_cons_take v r1 hfind (by simp [takes_following, ha, he])]
            · cases hp

/-- C1: in standard mode, when `parse` succeeds, `rem` is a subsequence of the
tokens in their order, and it is the list of the tokens that are neither
matched as a registered handle nor taken as the value of the option before. -/
theorem parse_rem_is_positional (p : opt_parser_t) (argv : List (List Char)) (info : opt_info)
    (hb : p.is_bsd_opt_enabled = false) (hm : p.is_merged_opt_enabled = false)
    (hs : p.is_subcommand_enabled = false) (h : p.parse argv = .ok info) :
    info.rem.Sublist argv ∧ info.rem = positional p argv := by
  unfold opt_parser_t.parse at h
  simp only [hs, Bool.false_eq_true, false_and, if_false] at h
  have := parse_loop_rem p hb hm hs argv.length argv (le_refl _) 0 _ _ h
  simp only [List.nil_append] at this
  rw [this]
  exact ⟨positional_sublist p argv.length argv (le_refl _), rfl⟩

/-- C1 at the input of `t/20-option-assignment.cpp`: the parse succeeds, `rem`
is `[data, other, finally]`, and `wife`, `age`, `humanity` have the values
`ellen`, `42`, `yes`. -/
theorem parse_rem_is_positional_witness :
    parser_t20.parse argv_t20 = .ok info_t20 ∧
    info_t20.rem = [str "data", str "other", str "finally"] ∧
    info_t20.arg (str "wife") [] = str "ellen" ∧
    info_t20.arg (str "age") [] = str "42" ∧
    info_t20.arg (str "humanity") [] = str "yes" ∧
    info_t20.rem.Sublist argv_t20 ∧ info_t20.rem = positional parser_t20 argv_t20 :=
  ⟨by decide!, by decide!, by decide!, by decide!, by decide!,
   parse_rem_is_positional parser_t20 argv_t20 info_t20 (by decide!) (by decide!) (by decide!)
     (by decide!)⟩

/-! ### The assignment forms of a spec (C2) -/

theorem handle_char_ne {c : Char} (h : IS_NAME c = true ∨ IS_PREFIX c = true) :
    c ≠ '[' ∧ c ≠ '|' ∧ c ≠ '=' ∧ c ≠ '?' ∧ c ≠ '*' := by
  refine ⟨?_, ?_, ?_, ?_, ?_⟩ <;> (rintro rfl; revert h; decide)

theorem exec_plain {sub : Bool} {m m1 : Machine} {c : Char} (hm : m.plain)
    (hc : IS_NAME c = true ∨ IS_PREFIX c = true) (h : exec sub m (some c) = .done m1) :
    m1.plain := by
  obtain ⟨h1, h2, h3, h4, hs⟩ := hm
  obtain ⟨c1, c2, c3, c4, c5⟩ := handle_char_ne hc
  rcases hs with hs | hs | hs | hs | hs | hs <;>
    simp only [exec, exec_NONE, hs, c1, c2, c3, c4, c5, if_false, Machine.fail] at h <;>
    (repeat' split at h) <;>
    first
      | (cases h; done)
      | (cases h; simp [Machine.plain, h1, h2, h3, h4])

theorem loop_plain_append {sub : Bool} :
    ∀ (h : List Char), (∀ c ∈ h, IS_NAME c = true ∨ IS_PREFIX c = true) →
      ∀ (m m2 : Machine) (rest : List Char), m.plain → loop sub m (h ++ rest) = .done m2 →
        ∃ m1, m1.plain ∧ loop sub m1 rest = .done m2 := by
  intro h
  induction h with
  | nil => intro _ m m2 rest hm hl; exact ⟨m, hm, hl⟩
  | cons c h ih =>
    intro hh m m2 rest hm hl
    simp only [List.cons_append, loop] at hl
    split at hl
    · cases hl
    · rename_i m1 he
      exact ih (fun c hc => hh c (List.mem_cons_of_mem _ hc)) m1 m2 rest
        (exec_plain hm (hh c (List.mem_cons_self _ _)) he) hl

theorem start_plain (n : Nat) : (Machine.start n).plain := by
  simp [Machine.plain, Machine.start, option_t.default]

theorem register_ok {p : opt_parser_t} {opt o : option_t} {handles : List (List Char)}
    (h : (register p opt handles).1 = .ok o) : o = opt := by
  unfold register at h
  dsimp only at h
  split at h
  · split at h
    · simpa using h.symm
    · simp at h
  · split at h
    · split at h
      · simpa using h.symm
      · simp at h
    · simp at h

theorem option_ok_loop {p : opt_parser_t} {spec name : List Char} {opt : option_t}
    (h : (p.option spec name).1 = .ok opt) :
    ∃ m, loop p.is_subcommand_enabled (Machine.start p.mod_count) spec = .done m ∧
      opt.number = m.opt.number ∧ opt.assignment = m.opt.assignment ∧
      opt.collection = m.opt.collection ∧ opt.data_type = m.opt.data_type := by
  unfold opt_parser_t.option compile at h
  split at h
  · simp at h
  · rename_i o hs n hc
    split at hc
    · cases hc
    · rename_i m hl
      refine ⟨m, hl, ?_⟩
      split at hc
      · cases hc
      · split at hc
        · cases hc
        · cases hc
          rw [register_ok h]
          simp

theorem loop_eq_step {sub : Bool} {m m2 : Machine} {tail : List Char} (hm : m.plain)
    (h : loop sub m ('=' :: tail) = .done m2) :
    ∃ m1, m1.state = .EQ ∧ m1.opt.number = .ZERO_ONE ∧ m1.opt.assignment = .EQ_REQUIRED ∧
      m1.opt.collection = .SCALAR ∧ m1.opt.data_type = .STRING ∧ loop sub m1 tail = .done m2 := by
  obtain ⟨h1, h2, h3, h4, hs⟩ := hm
  simp only [loop] at h
  split at h
  · cases h
  · rename_i m1 he
    refine ⟨m1, ?_⟩
    rcases hs with hs | hs | hs | hs | hs | hs <;>
      simp [exec, exec_NONE, hs, Machine.fail, IS_NAME] at he
    subst he
    refine ⟨rfl, h1, rfl, rfl, h4, h⟩

theorem loop_letters {sub : Bool} {m m2 : Machine} {t : List Char} {T : Data_Prop}
    (ht : (t, T) ∈ [([], Data_Prop.STRING), (['s'], Data_Prop.STRING), (['i'], Data_Prop.INTEGER),
      (['f'], Data_Prop.FLOAT)])
    (hs : m.state = .EQ ∨ m.state = .ARG) (hd : m.opt.data_type = .STRING)
    (h : loop sub m t = .done m2) :
    m2.opt.number = m.opt.number ∧ m2.opt.assignment = m.opt.assignment ∧
      m2.opt.collection = m.opt.collection ∧ m2.opt.data_type = T := by
  simp only [List.mem_cons, Prod.mk.injEq, List.mem_singleton, List.not_mem_nil, or_false] at ht
  rcases ht with ⟨rfl, rfl⟩ | ⟨rfl, rfl⟩ | ⟨rfl, rfl⟩ | ⟨rfl, rfl⟩ <;>
    rcases hs with hs | hs <;>
    simp [loop, exec, hs, data_type_of] at h <;>
    subst h <;> simp [hd]

/-- C2: for a handle text `h` (word and prefix characters only) and a type
letter `t` naming the type `T` (no letter, or `s`, naming STRING; `i` INTEGER;
`f` FLOAT), when the declaration compiles, the spec `h=t` gives EQ_REQUIRED,
`h=?t` gives EQ_MAYBE, `h=!t` gives EQ_NEVER, each with SCALAR, ZERO_ONE and
the type `T`, and `h` alone gives NO_ASSIGN, SCALAR, ZERO_ONE, STRING. -/
theorem assignment_of_spec (p : opt_parser_t) (h name t : List Char) (T : Data_Prop)
    (opt : option_t)
    (hh : ∀ c ∈ h, IS_NAME c = true ∨ IS_PREFIX c = true)
    (ht : (t, T) ∈ [([], Data_Prop.STRING), (['s'], Data_Prop.STRING),
      (['i'], Data_Prop.INTEGER), (['f'], Data_Prop.FLOAT)]) :
    ((p.option (h ++ '=' :: t) name).1 = .ok opt →
      opt.assignment = .EQ_REQUIRED ∧ opt.collection = .SCALAR ∧ opt.number = .ZERO_ONE ∧
        opt.data_type = T) ∧
    ((p.option (h ++ '=' :: '?' :: t) name).1 = .ok opt →
      opt.assignment = .EQ_MAYBE ∧ opt.collection = .SCALAR ∧ opt.number = .ZERO_ONE ∧
        opt.data_type = T) ∧
    ((p.option (h ++ '=' :: '!' :: t) name).1 = .ok opt →
      opt.assignment = .EQ_NEVER ∧ opt.collection = .SCALAR ∧ opt.number = .ZERO_ONE ∧
        opt.data_type = T) ∧
    ((p.option h name).1 = .ok opt →
      opt.assignment = .NO_ASSIGN ∧ opt.collection = .SCALAR ∧ opt.number = .ZERO_ONE ∧
        opt.data_type = .STRING) := by
  refine ⟨?_, ?_, ?_, ?_⟩
  · intro hok
    obtain ⟨m2, hl, e1, e2, e3, e4⟩ := option_ok_loop hok
    obtain ⟨m0, hp0, hl0⟩ := loop_plain_append h hh _ _ _ (start_plain _) hl
    obtain ⟨m1, s1, n1, a1, c1, d1, hl1⟩ := loop_eq_step hp0 hl0
    obtain ⟨f1, f2, f3, f4⟩ := loop_letters ht (Or.inl s1) d1 hl1
    rw [e1, e2, e3, e4, f1, f2, f3, f4]
    exact ⟨a1, c1, n1, rfl⟩
  · intro hok
    obtain ⟨m2, hl, e1, e2, e3, e4⟩ := option_ok_loop hok
    obtain ⟨m0, hp0, hl0⟩ := loop_plain_append h hh _ _ _ (start_plain _) hl
    obtain ⟨m1, s1, n1, a1, c1, d1, hl1⟩ := loop_eq_step hp0 hl0
    simp only [loop, exec, s1] at hl1
    simp at hl1
    obtain ⟨f1, f2, f3, f4⟩ := loop_letters ht (Or.inr rfl) (by simpa using d1) hl1
    rw [e1, e2, e3, e4, f1, f2, f3, f4]
    exact ⟨rfl, c1, n1, rfl⟩
  · intro hok
    obtain ⟨m2, hl, e1, e2, e3, e4⟩ := option_ok_loop hok
    obtain ⟨m0, hp0, hl0⟩ := loop_plain_append h hh _ _ _ (start_plain _) hl
    obtain ⟨m1, s1, n1, a1, c1, d1, hl1⟩ := loop_eq_step hp0 hl0
    simp only [loop, exec, s1] at hl1
    simp at hl1
    obtain ⟨f1, f2, f3, f4⟩ := loop_letters ht (Or.inr rfl) (by simpa using d1) hl1
    rw [e1, e2, e3, e4, f1, f2, f3, f4]
    exact ⟨rfl, c1, n1, rfl⟩
  · intro hok
    obtain ⟨m2, hl, e1, e2, e3, e4⟩ := option_ok_loop hok
    have hl' : loop p.is_subcommand_enabled (Machine.start p.mod_count) (h ++ []) = .done m2 := by
      simpa using hl
    obtain ⟨m0, ⟨n0, a0, c0, d0, hs⟩, hl0⟩ := loop_plain_append h hh _ _ _ (start_plain _) hl'
    have : m2.opt = m0.opt := by
      rcases hs with hs | hs | hs | hs | hs | hs <;>
        simp [loop, exec, exec_NONE, hs, Machine.fail] at hl0
      · subst hl0; rfl
      · subst hl0; rfl
      · split at hl0 <;> (cases hl0; rfl)
    rw [e1, e2, e3, e4, this]
    exact ⟨a0, c0, n0, d0⟩

/-- C2 at the specs of `t/20-option-assignment.cpp`: `-wife=!s` compiles to
EQ_NEVER, SCALAR, ZERO_ONE, STRING with the name `wife`. -/
theorem assignment_of_spec_witness :
    (opt_parser_t.new.option (str "-wife" ++ '=' :: '!' :: ['s']) []).1
        = .ok { option_t.default with assignment := .EQ_NEVER, name := str "wife" } ∧
    ({ option_t.default with assignment := .EQ_NEVER, name := str "wife" } : option_t).assignment
        = .EQ_NEVER ∧
    ({ option_t.default with assignment := .EQ_NEVER, name := str "wife" } : option_t).collection
        = .SCALAR ∧
    ({ option_t.default with assignment := .EQ_NEVER, name := str "wife" } : option_t).number
        = .ZERO_ONE ∧
    ({ option_t.default with assignment := .EQ_NEVER, name := str "wife" } : option_t).data_type
        = .STRING :=
  ⟨by decide!,
   (assignment_of_spec opt_parser_t.new (str "-wife") [] ['s'] .STRING
      { option_t.default with assignment := .EQ_NEVER, name := str "wife" }
      (by decide!) (by decide!)).2.2.1 (by decide!)⟩

/-! ### Registration (C7, C9) -/

theorem option_of_compile_done {p : opt_parser_t} {spec name : List Char} {opt : option_t}
    {handles : List (List Char)} {n : Nat}
    (h : compile p.is_subcommand_enabled p.mod_count spec name = .done (opt, handles, n)) :
    p.option spec name = register { p with mod_count := n } opt handles := by
  unfold opt_parser_t.option
  rw [h]

theorem option_of_compile_throw {p : opt_parser_t} {spec name : List Char} {e : Failure} {n : Nat}
    (h : compile p.is_subcommand_enabled p.mod_count spec name = .throw e n) :
    p.option spec name = (.error e, { p with mod_count := n }) := by
  unfold opt_parser_t.option
  rw [h]

theorem compatible_iff (a b : option_t) :
    a.compatible b = true ↔
      a.number = b.number ∧ a.assignment = b.assignment ∧ a.collection = b.collection ∧
        a.data_type = b.data_type := by
  simp [option_t.compatible]
  tauto

/-- C7: when the name that a declaration compiles to is already in the name
set, with an option that differs in cardinality, assignment, collection or
value type, the declaration throws the `option_language_error` "options with
same name must be compatible". -/
theorem incompatible_redeclaration_fails (p : opt_parser_t) (spec name : List Char)
    (opt found : option_t) (handles : List (List Char)) (n : Nat)
    (hc : compile p.is_subcommand_enabled p.mod_count spec name = .done (opt, handles, n))
    (hf : set_find p.name_set opt.name = some found)
    (hd : opt.number ≠ found.number ∨ opt.assignment ≠ found.assignment ∨
      opt.collection ≠ found.collection ∨ opt.data_type ≠ found.data_type) :
    (p.option spec name).1
      = .error (.option_language_error (.options_with_same_name_must_be_compatible opt.name)) := by
  have hn : opt.compatible found = false := by
    cases hcomp : opt.compatible found with
    | false => rfl
    | true =>
      obtain ⟨h1, h2, h3, h4⟩ := (compatible_iff _ _).1 hcomp
      rcases hd with hd | hd | hd | hd <;> contradiction
  rw [option_of_compile_done hc]
  unfold register
  simp [hf, hn]

/-- C7 at the declarations `-age=?i` and `--age=?s`: the second compiles to the
name `age` with the type STRING, the name set holds `age` with the type
INTEGER, and the second declaration throws. -/
theorem incompatible_redeclaration_fails_witness :
    (parser_age.option (str "--age=?s") []).1
      = .error (.option_language_error (.options_with_same_name_must_be_compatible (str "age"))) :=
  incompatible_redeclaration_fails parser_age (str "--age=?s") []
    { option_t.default with assignment := .EQ_MAYBE, name := str "age" }
    { option_t.default with assignment := .EQ_MAYBE, data_type := .INTEGER, name := str "age" }
    [str "--age"] 0 (by decide!) (by decide!) (by decide!)

theorem insert_handles_prefix (opt : option_t) :
    ∀ (handles : List (List Char)) (handle_map : List (List Char × option_t)),
      handle_map <+: (insert_handles opt handles handle_map).1 := by
  intro handles
  induction handles with
  | nil => intro hm; simp [insert_handles]
  | cons h r ih =>
    intro hm
    unfold insert_handles
    split
    · exact (List.prefix_append hm _).trans (ih _)
    · simp

/-- C9 as amended: a declaration that fails with anything but "handle
repeated" leaves the handle map and the name set as they were; after a
"handle repeated" failure the handle map and the name set begin with the
entries they had before the call. -/
theorem failed_declaration_registry (p : opt_parser_t) (spec name : List Char) (e : Failure)
    (h : (p.option spec name).1 = .error e) :
    ((∀ handle, e ≠ .option_language_error (.handle_repeated handle)) →
      (p.option spec name).2.handle_map = p.handle_map ∧
        (p.option spec name).2.name_set = p.name_set) ∧
    (p.handle_map <+: (p.option spec name).2.handle_map ∧
      p.name_set <+: (p.option spec name).2.name_set) := by
  cases hc : compile p.is_subcommand_enabled p.mod_count spec name with
  | throw e1 n =>
    rw [option_of_compile_throw hc]
    simp
  | done r =>
    obtain ⟨opt, handles, n⟩ := r
    rw [option_of_compile_done hc] at h ⊢
    unfold register at h ⊢
    dsimp only at h ⊢
    cases hfind : set_find p.name_set opt.name with
    | none =>
      simp only [hfind] at h ⊢
      cases hr : (insert_handles opt handles p.handle_map).2 with
      | none => simp [hr] at h
      | some handle =>
        simp only [hr, Except.error.injEq] at h ⊢
        subst h
        exact ⟨fun hne => absurd rfl (hne handle), insert_handles_prefix _ _ _,
          List.prefix_append _ _⟩
    | some found =>
      simp only [hfind] at h ⊢
      cases hcomp : opt.compatible found with
      | false => simp
      | true =>
        simp only [hcomp, if_true] at h ⊢
        cases hr : (insert_handles opt handles p.handle_map).2 with
        | none => simp [hr] at h
        | some handle =>
          simp only [hr, Except.error.injEq] at h ⊢
          subst h
          exact ⟨fun hne => absurd rfl (hne handle), insert_handles_prefix _ _ _,
            List.prefix_refl _⟩

/-- C9 as amended, at the declaration `--age=?s` after `-age=?i`: it fails as
an incompatible redeclaration and leaves the handle map and the name set as
they were. -/
theorem failed_declaration_registry_witness :
    (parser_age.option (str "--age=?s") []).2.handle_map = parser_age.handle_map ∧
    (parser_age.option (str "--age=?s") []).2.name_set = parser_age.name_set :=
  (failed_declaration_registry parser_age (str "--age=?s") []
    (.option_language_error (.options_with_same_name_must_be_compatible (str "age")))
    (by decide!)).1 (by intro handle; simp)

/-- C9 refuted: after the declaration `-aa`, the declaration `-bb|-aa` with the
explicit name `bb` throws "handle repeated: -aa", and the call has added the
name `bb` to the name set and the handle `-bb` to the handle map. -/
theorem failed_declaration_changes_registry :
    (parser_aa.option (str "-bb|-aa") (str "bb")).1
      = .error (.option_language_error (.handle_repeated (str "-aa"))) ∧
    parser_aa.handle_map.map Prod.fst = [str "-aa"] ∧
    (parser_aa.option (str "-bb|-aa") (str "bb")).2.handle_map.map Prod.fst
      = [str "-aa", str "-bb"] ∧
    parser_aa.name_set.map option_t.name = [str "aa"] ∧
    (parser_aa.option (str "-bb|-aa") (str "bb")).2.name_set.map option_t.name
      = [str "aa", str "bb"] := by
  decide!

/-! ### Redeclaration with new handles (C8) -/

/-- The loop of `parse` on a non-empty list of tokens: the body on the first
token, then the loop on the tokens that the body has not taken. -/
theorem parse_loop_cons (p : opt_parser_t) (i : Nat) (handle : List Char)
    (rest : List (List Char)) (info : opt_info) :
    parse_loop p i (handle :: rest) info =
      match token_step p i handle rest.head? info with
      | .error e => .error e
      | .ok (false, info1) => parse_loop p (i + 1) rest info1
      | .ok (true, info1) => parse_loop p (i + 2) rest.tail info1 := by
  rw [parse_loop]
  unfold token_step option_step
  cases hg : get_handle p i handle (find_first_of handle '=') info with
  | error e => simp only
  | ok lk =>
    cases lk with
    | continue_with d => simp only
    | iter found =>
      cases found with
      | none =>
        simp only
        split <;> simp only
      | some opt =>
        simp only
        split
        · simp only
        · split
          · simp only
          · cases opt.assignment <;> cases find_first_of handle '=' <;> simp only
            · split <;> simp only
            · cases rest with
              | nil => simp only [List.head?_nil]
              | cons v r =>
                simp only [List.head?_cons, List.tail_cons]
                split <;> simp only
            · split <;> simp only
            · cases rest with
              | nil => simp only [List.head?_nil]
              | cons v r =>
                simp only [List.head?_cons, List.tail_cons]
                split <;> simp only

theorem store_list_error (opt : option_t) (args : List Char) :
    ∀ (pieces : List (List Char)) (state : Float_State) (data : List (List Char × List Char))
      (e : Failure), store_list opt args pieces state data = .error e → ∃ pe, e = .parse_error pe := by
  intro pieces
  induction pieces with
  | nil => intro st data e h; simp [store_list] at h
  | cons v r ih =>
    intro st data e h
    unfold store_list at h
    split at h
    · exact ih _ _ _ h
    · split at h
      · exact ih _ _ _ h
      · cases h; exact ⟨_, rfl⟩
    · dsimp only at h
      split at h
      · cases h; exact ⟨_, rfl⟩
      · exact ih _ _ _ h

theorem store_error {opt : option_t} {handle args : List Char} {info : opt_info} {e : Failure}
    (h : store opt handle args info = .error e) : ∃ pe, e = .parse_error pe := by
  unfold store at h
  split at h
  · split at h
    · split at h
      · cases h
      · split at h
        · cases h
        · cases h; exact ⟨_, rfl⟩
      · dsimp only at h
        split at h
        · cases h; exact ⟨_, rfl⟩
        · cases h
    · cases h; exact ⟨_, rfl⟩
  · split at h
    · rename_i e1 hsl
      cases h
      exact store_list_error _ _ _ _ _ _ hsl
    · cases h

theorem decode_chars_error (p : opt_parser_t) :
    ∀ (chars : List Char) (accepted : Bool) (data : List (List Char × List Char)) (e : Failure),
      decode_chars p chars accepted data = .error e → ∃ pe, e = .parse_error pe := by
  intro chars
  induction chars with
  | nil => intro a d e h; simp [decode_chars] at h
  | cons c r ih =>
    intro a d e h
    unfold decode_chars at h
    dsimp only at h
    split at h
    · split at h
      · cases h; exact ⟨_, rfl⟩
      · cases h
    · split at h
      · split at h
        · cases h; exact ⟨_, rfl⟩
        · exact ih _ _ _ h
      · cases h; exact ⟨_, rfl⟩

theorem get_handle_error {p : opt_parser_t} {i : Nat} {handle : List Char} {eq_loc : Option Nat}
    {info : opt_info} {e : Failure} (h : get_handle p i handle eq_loc info = .error e) :
    ∃ pe, e = .parse_error pe := by
  unfold get_handle at h
  split at h
  · split at h
    · split at h
      · rename_i e1 hd
        cases h
        unfold decode_first at hd
        split at hd
        · cases hd
        · split at hd
          · rename_i e2 hs
            cases hd
            unfold skip_prefix_chars at hs
            split at hs
            · cases hs
            · split at hs
              · cases hs; exact ⟨_, rfl⟩
              · split at hs <;> cases hs
          · exact decode_chars_error _ _ _ _ _ hd
      · split at h <;> cases h
    · cases h
  · split at h
    · cases h; exact ⟨_, rfl⟩
    · cases h

theorem token_step_error {p : opt_parser_t} {i : Nat} {handle : List Char}
    {next : Option (List Char)} {info : opt_info} {e : Failure}
    (h : token_step p i handle next info = .error e) : ∃ pe, e = .parse_error pe := by
  unfold token_step option_step at h
  split at h
  · rename_i e1 hg
    cases h
    exact get_handle_error hg
  · cases h
  · split at h
    · cases h; exact ⟨_, rfl⟩
    · cases h
  · split at h
    · cases h; exact ⟨_, rfl⟩
    · split at h
      · cases h; exact ⟨_, rfl⟩
      · split at h
        · cases h
        · cases h; exact ⟨_, rfl⟩
        · cases h; exact ⟨_, rfl⟩
        · split at h
          · rename_i hs; cases h; exact store_error hs
          · cases h
        · split at h
          · cases h; exact ⟨_, rfl⟩
          · split at h
            · rename_i hs; cases h; exact store_error hs
            · cases h
        · split at h
          · rename_i hs; cases h; exact store_error hs
          · cases h
        · split at h
          · cases h; exact ⟨_, rfl⟩
          · split at h
            · rename_i hs; cases h; exact store_error hs
            · cases h
        · cases h; exact ⟨_, rfl⟩

/-- The body of the loop with no token after the current one, against the
body with the token `next` after it: a result without a throw is the same and
takes no token, and a throw other than "missing an argument" is the same. -/
theorem token_step_none {p : opt_parser_t} {i : Nat} {handle : List Char} {info : opt_info}
    (next : Option (List Char)) :
    (∀ x, token_step p i handle none info = .ok x →
      x.1 = false ∧ token_step p i handle next info = .ok x) ∧
    (∀ e, token_step p i handle none info = .error e →
      (∀ h, e ≠ .parse_error (.missing_an_argument h)) →
      token_step p i handle next info = .error e) := by
  unfold token_step option_step
  cases hg : get_handle p i handle (find_first_of handle '=') info with
  | error e => simp
  | ok lk =>
    cases lk with
    | continue_with d => simp
    | iter found =>
      cases found with
      | none =>
        simp only
        split <;> simp
      | some opt =>
        simp only
        split
        · simp
        · split
          · simp
          · cases opt.assignment <;> cases find_first_of handle '=' <;> simp only
            · simp
            · simp
            · simp
            · split <;> simp
            · constructor
              · intro x hx; cases hx
              · intro e he hne
                cases he
                exact absurd rfl (hne handle)
            · split <;> simp
            · constructor
              · intro x hx; cases hx
              · intro e he hne
                cases he
                exact absurd rfl (hne handle)
            · simp

theorem parse_loop_error (p : opt_parser_t) :
    ∀ n (argv : List (List Char)), argv.length ≤ n → ∀ (i : Nat) (info : opt_info) (e : Failure),
      parse_loop p i argv info = .error e → ∃ pe, e = .parse_error pe := by
  intro n
  induction n with
  | zero =>
    intro argv h i info e hp
    cases argv with
    | nil => simp [parse_loop] at hp
    | cons t r => simp at h
  | succ n ih =>
    intro argv h i info e hp
    cases argv with
    | nil => simp [parse_loop] at hp
    | cons t r =>
      have hr : r.length ≤ n := by simpa using h
      have hr1 : r.tail.length ≤ n := by simp; omega
      rw [parse_loop_cons] at hp
      split at hp
      · rename_i e1 hs
        cases hp
        exact token_step_error hs
      · exact ih r hr _ _ _ hp
      · exact ih r.tail hr1 _ _ _ hp

/-- The loop of `parse` on the tokens `argv ++ rest`: when the loop on `argv`
alone ends without a throw, it goes on with `rest` from the result; when the
loop on `argv` alone throws anything but "missing an argument", it throws the
same on `argv ++ rest`. -/
theorem parse_loop_append (p : opt_parser_t) (rest : List (List Char)) :
    ∀ n (argv : List (List Char)), argv.length ≤ n → ∀ (i : Nat) (info : opt_info),
      (∀ info1, parse_loop p i argv info = .ok info1 →
        parse_loop p i (argv ++ rest) info = parse_loop p (i + argv.length) rest info1) ∧
      (∀ e, parse_loop p i argv info = .error e →
        (∀ h, e ≠ .parse_error (.missing_an_argument h)) →
        parse_loop p i (argv ++ rest) info = .error e) := by
  intro n
  induction n with
  | zero =>
    intro argv h i info
    cases argv with
    | nil => simp [parse_loop]
    | cons t r => simp at h
  | succ n ih =>
    intro argv h i info
    cases argv with
    | nil => simp [parse_loop]
    | cons t r =>
      have hr : r.length ≤ n := by simpa using h
      have hr1 : r.tail.length ≤ n := by simp; omega
      simp only [List.cons_append]
      rw [parse_loop_cons, parse_loop_cons]
      cases r with
      | nil =>
        simp only [List.head?_nil, List.nil_append, List.tail_nil, List.length_singleton]
        have hnone := @token_step_none p i t info rest.head?
        cases hs : token_step p i t none info with
        | error e =>
          constructor
          · intro info1 hx; cases hx
          · intro e1 he hne
            cases he
            rw [hnone.2 e hs hne]
        | ok x =>
          obtain ⟨hx1, hx2⟩ := hnone.1 x hs
          obtain ⟨b, info2⟩ := x
          simp only at hx1
          subst hx1
          rw [hx2]
          simp [parse_loop]
      | cons v r1 =>
        simp only [List.cons_append, List.head?_cons, List.tail_cons]
        cases hs : token_step p i t (some v) info with
        | error e => simp
        | ok x =>
          obtain ⟨b, info2⟩ := x
          cases b with
          | false =>
            simp only
            have := ih (v :: r1) hr (i + 1) info2
            simp only [List.cons_append] at this
            have e1 : i + 1 + (v :: r1).length = i + (t :: v :: r1).length := by
              simp; omega
            rw [e1] at this
            exact this
          | true =>
            simp only
            have := ih r1 (by simpa using hr1) (i + 2) info2
            have e1 : i + 2 + r1.length = i + (t :: v :: r1).length := by
              simp; omega
            rw [e1] at this
            exact this

/-! ### Tokens of the form `h` and `h=v` -/

theorem find_first_of_not_mem {c : Char} : ∀ {s : List Char}, c ∉ s → find_first_of s c = none
  | [], _ => rfl
  | x :: s, h => by
    have hx : x ≠ c := fun e => h (e ▸ List.mem_cons_self _ _)
    have hs : c ∉ s := fun e => h (List.mem_cons_of_mem _ e)
    simp [find_first_of, hx, find_first_of_not_mem hs]

theorem find_first_of_append {c : Char} (v : List Char) :
    ∀ {s : List Char}, c ∉ s → find_first_of (s ++ c :: v) c = some s.length
  | [], _ => by simp [find_first_of]
  | x :: s, h => by
    have hx : x ≠ c := fun e => h (e ▸ List.mem_cons_self _ _)
    have hs : c ∉ s := fun e => h (List.mem_cons_of_mem _ e)
    simp [find_first_of, hx, find_first_of_append v hs]

theorem handle_part_bare {h : List Char} (hh : '=' ∉ h) : handle_part h = h := by
  simp [handle_part, find_first_of_not_mem hh]

theorem handle_part_inline {h : List Char} (hh : '=' ∉ h) (v : List Char) :
    handle_part (h ++ '=' :: v) = h := by
  simp [handle_part, find_first_of_append v hh]

theorem drop_inline (h v : List Char) : (h ++ '=' :: v).drop (h.length + 1) = v := by
  induction h with
  | nil => rfl
  | cons x h ih => simp

/-- Outside the first token of bsd, merged and subcommand mode, the lookup of
a token is the lookup of its handle part in the handle map. -/
theorem get_handle_at {p : opt_parser_t} {i : Nat}
    (hi : i ≠ 0 ∨ (p.is_bsd_opt_enabled = false ∧ p.is_merged_opt_enabled = false ∧
      p.is_subcommand_enabled = false))
    (handle : List Char) (info : opt_info) :
    get_handle p i handle (find_first_of handle '=') info
      = .ok (.iter (map_find p.handle_map (handle_part handle))) := by
  unfold get_handle handle_part
  rcases hi with hi | ⟨hb, hm, hs⟩
  · cases find_first_of handle '=' <;> simp [hi]
  · cases find_first_of handle '=' <;> simp [hb, hm, hs]

/-- Outside the first token of bsd and merged mode, the lookup of a token
without `=` is the lookup of the token in the handle map. -/
theorem get_handle_bare {p : opt_parser_t} {i : Nat}
    (hi : i ≠ 0 ∨ (p.is_bsd_opt_enabled = false ∧ p.is_merged_opt_enabled = false))
    {handle : List Char} (hh : '=' ∉ handle) (info : opt_info) :
    get_handle p i handle (find_first_of handle '=') info
      = .ok (.iter (map_find p.handle_map handle)) := by
  unfold get_handle
  rw [find_first_of_not_mem hh]
  rcases hi with hi | ⟨hb, hm⟩
  · simp [hi]
  · simp [hb, hm]

theorem token_step_at {p : opt_parser_t} {i : Nat}
    (hi : i ≠ 0 ∨ (p.is_bsd_opt_enabled = false ∧ p.is_merged_opt_enabled = false ∧
      p.is_subcommand_enabled = false))
    {handle : List Char} {d : option_t} (hd : map_find p.handle_map (handle_part handle) = some d)
    (next : Option (List Char)) (info : opt_info) :
    token_step p i handle next info
      = option_step d i handle (find_first_of handle '=') next info := by
  unfold token_step
  rw [get_handle_at hi, hd]

theorem token_step_bare {p : opt_parser_t} {i : Nat}
    (hi : i ≠ 0 ∨ (p.is_bsd_opt_enabled = false ∧ p.is_merged_opt_enabled = false))
    {h : List Char} (hh : '=' ∉ h) {d : option_t} (hd : map_find p.handle_map h = some d)
    (next : Option (List Char)) (info : opt_info) :
    token_step p i h next info = option_step d i h none next info := by
  unfold token_step
  rw [get_handle_bare hi hh, hd, find_first_of_not_mem hh]

theorem parse_eq_loop {p : opt_parser_t} (h : ¬(p.is_subcommand_enabled = true ∧ p.mod_count = 0))
    (argv : List (List Char)) :
    p.parse argv = parse_loop p 0 argv { rem := [], opt_data := [] } := by
  unfold opt_parser_t.parse
  rw [if_neg h]

theorem parse_ok_guard {p : opt_parser_t} {argv : List (List Char)} {info : opt_info}
    (h : p.parse argv = .ok info) : ¬(p.is_subcommand_enabled = true ∧ p.mod_count = 0) := by
  intro hg
  unfold opt_parser_t.parse at h
  rw [if_pos hg] at h
  cases h

/-! ### EQ_REQUIRED (C15) -/

/-- C15: in standard mode, for a SCALAR STRING option with assignment
EQ_REQUIRED reached by the handle `h`, the parse of the single token `h=v`
succeeds for every `v` and stores `v`, all that follows the first `=`, as the
one value of the option, so `arg(name)` is `v`; the parse of the single token
`h` throws the `parse_error` "is missing equals sign". -/
theorem eq_required_takes_inline_value (p : opt_parser_t) (h v : List Char) (d : option_t)
    (hb : p.is_bsd_opt_enabled = false) (hm : p.is_merged_opt_enabled = false)
    (hs : p.is_subcommand_enabled = false) (hh : '=' ∉ h)
    (hd : map_find p.handle_map h = some d) (ha : d.assignment = .EQ_REQUIRED)
    (hc : d.collection = .SCALAR) (ht : d.data_type = .STRING) :
    p.parse [h ++ '=' :: v] = .ok { rem := [], opt_data := [(d.name, v)] } ∧
    (∀ info, p.parse [h ++ '=' :: v] = .ok info → info.arg d.name [] = v) ∧
    p.parse [h] = .error (.parse_error (.is_missing_equals_sign h)) := by
  have hg : ¬(p.is_subcommand_enabled = true ∧ p.mod_count = 0) := by simp [hs]
  have hi : (0 : Nat) ≠ 0 ∨ (p.is_bsd_opt_enabled = false ∧ p.is_merged_opt_enabled = false ∧
      p.is_subcommand_enabled = false) := Or.inr ⟨hb, hm, hs⟩
  have h1 : p.parse [h ++ '=' :: v] = .ok { rem := [], opt_data := [(d.name, v)] } := by
    rw [parse_eq_loop hg, parse_loop_cons,
      token_step_at hi (by rw [handle_part_inline hh]; exact hd), find_first_of_append v hh]
    simp [option_step, ha, drop_inline, store, hc, ht, data_find, parse_loop]
  refine ⟨h1, ?_, ?_⟩
  · intro info hi
    rw [h1] at hi
    cases hi
    simp [opt_info.arg, data_find]
  · rw [parse_eq_loop hg, parse_loop_cons,
      token_step_at hi (by rw [handle_part_bare hh]; exact hd), find_first_of_not_mem hh]
    simp [option_step, ha, data_find]

/-- C15 at `-humanity=s` of `t/20-option-assignment.cpp`: `-humanity=yes`
gives `yes`, `-humanity=a=b` gives `a=b`, and `-humanity` alone fails. -/
theorem eq_required_takes_inline_value_witness :
    parser_t20.parse [str "-humanity=yes"]
      = .ok { rem := [], opt_data := [(str "humanity", str "yes")] } ∧
    parser_t20.parse [str "-humanity=a=b"]
      = .ok { rem := [], opt_data := [(str "humanity", str "a=b")] } ∧
    parser_t20.parse [str "-humanity"]
      = .error (.parse_error (.is_missing_equals_sign (str "-humanity"))) :=
  ⟨(eq_required_takes_inline_value parser_t20 (str "-humanity") (str "yes")
      { option_t.default with assignment := .EQ_REQUIRED, name := str "humanity" }
      (by decide!) (by decide!) (by decide!) (by decide!) (by decide!) (by decide!) (by decide!)
      (by decide!)).1,
   by decide!, by decide!⟩

/-! ### One occurrence of an option after tokens that parse (C17, C18) -/

theorem parse_after {p : opt_parser_t} {pre : List (List Char)} {info1 : opt_info}
    (hpre : p.parse pre = .ok info1) (rest : List (List Char)) :
    p.parse (pre ++ rest) = parse_loop p pre.length rest info1 := by
  have hg := parse_ok_guard hpre
  rw [parse_eq_loop hg] at hpre ⊢
  have := (parse_loop_append p rest pre.length pre (le_refl _) 0 _).1 info1 hpre
  simpa using this

theorem option_step_error_kind {d : option_t} {i : Nat} {handle : List Char} {eq_loc : Option Nat}
    {next : Option (List Char)} {info : opt_info} {e : Failure}
    (h : option_step d i handle eq_loc next info = .error e) : ∃ pe, e = .parse_error pe := by
  unfold option_step at h
  split at h
  · cases h; exact ⟨_, rfl⟩
  · split at h
    · cases h; exact ⟨_, rfl⟩
    · split at h
      · cases h
      · cases h; exact ⟨_, rfl⟩
      · cases h; exact ⟨_, rfl⟩
      · split at h
        · rename_i hs; cases h; exact store_error hs
        · cases h
      · split at h
        · cases h; exact ⟨_, rfl⟩
        · split at h
          · rename_i hs; cases h; exact store_error hs
          · cases h
      · split at h
        · rename_i hs; cases h; exact store_error hs
        · cases h
      · split at h
        · cases h; exact ⟨_, rfl⟩
        · split at h
          · rename_i hs; cases h; exact store_error hs
          · cases h
      · cases h; exact ⟨_, rfl⟩

theorem not_stored {info1 : opt_info} {d : option_t}
    (hnot : d.number = .ZERO_ONE → info1.has d.name = false) :
    ¬(d.number = .ZERO_ONE ∧ data_find info1.opt_data d.name ≠ none) := by
  intro hc
  have := hnot hc.1
  simp only [opt_info.has] at this
  cases hf : data_find info1.opt_data d.name with
  | none => exact hc.2 hf
  | some x => simp [hf] at this

theorem not_sub_after {pre : List (List Char)} {d : option_t}
    (hsub : ¬(pre ≠ [] ∧ d.mod = .SUB)) : ¬(pre.length ≠ 0 ∧ d.mod = .SUB) := by
  intro hc
  exact hsub ⟨by intro e; simp [e] at hc, hc.2⟩

theorem store_handle_ok {d : option_t} (h1 h2 : List Char) {args : List Char} {info x : opt_info}
    (hs : store d h1 args info = .ok x) : store d h2 args info = .ok x := by
  unfold store at hs ⊢
  split
  · rename_i hc
    simp only [hc] at hs
    split
    · rename_i hf
      simp only [hf, if_true] at hs
      exact hs
    · rename_i hf
      simp only [hf, if_false] at hs
      cases hs
  · rename_i hc
    simp only [hc] at hs
    exact hs

theorem store_handle_error {d : option_t} (h1 h2 : List Char) {args : List Char} {info : opt_info}
    {e : Failure} (hs : store d h1 args info = .error e) : ∃ e2, store d h2 args info = .error e2 := by
  cases h : store d h2 args info with
  | error e2 => exact ⟨e2, rfl⟩
  | ok x => rw [store_handle_ok h2 h1 h] at hs; cases hs

theorem get_handle_index {p : opt_parser_t} {i j : Nat} (hi : i ≠ 0) (hj : j ≠ 0)
    (handle : List Char) (eq_loc : Option Nat) (info : opt_info) :
    get_handle p i handle eq_loc info = get_handle p j handle eq_loc info := by
  unfold get_handle
  simp [hi, hj]

theorem token_step_index {p : opt_parser_t} {i j : Nat} (hi : i ≠ 0) (hj : j ≠ 0)
    (handle : List Char) (next : Option (List Char)) (info : opt_info) :
    token_step p i handle next info = token_step p j handle next info := by
  unfold token_step option_step
  rw [get_handle_index hi hj]
  simp [hi, hj]

/-- The loop of `parse` tests its index only against 0. -/
theorem parse_loop_index (p : opt_parser_t) :
    ∀ n (argv : List (List Char)), argv.length ≤ n → ∀ (i j : Nat) (info : opt_info),
      i ≠ 0 → j ≠ 0 → parse_loop p i argv info = parse_loop p j argv info := by
  intro n
  induction n with
  | zero =>
    intro argv h i j info hi hj
    cases argv with
    | nil => simp [parse_loop]
    | cons t r => simp at h
  | succ n ih =>
    intro argv h i j info hi hj
    cases argv with
    | nil => simp [parse_loop]
    | cons t r =>
      have hr : r.length ≤ n := by simpa using h
      have hr1 : r.tail.length ≤ n := by simp; omega
      rw [parse_loop_cons, parse_loop_cons, token_step_index hi hj]
      cases token_step p j t r.head? info with
      | error e => rfl
      | ok x =>
        obtain ⟨b, info1⟩ := x
        cases b with
        | false => exact ih r hr _ _ _ (by omega) (by omega)
        | true => exact ih r.tail hr1 _ _ _ (by omega) (by omega)

/-- The two forms of an EQ_MAYBE option from an index on, in standard mode. -/
theorem eq_maybe_forms_loop {p : opt_parser_t} (hb : p.is_bsd_opt_enabled = false)
    (hm : p.is_merged_opt_enabled = false) (hs : p.is_subcommand_enabled = false)
    {h : List Char} (hh : '=' ∉ h) {d : option_t} (hd : map_find p.handle_map h = some d)
    (ha : d.assignment = .EQ_MAYBE) (v : List Char) (post : List (List Char)) (k : Nat)
    (info1 info : opt_info) :
    parse_loop p k ((h ++ '=' :: v) :: post) info1 = .ok info ↔
      parse_loop p k (h :: v :: post) info1 = .ok info := by
  have hi : k ≠ 0 ∨ (p.is_bsd_opt_enabled = false ∧ p.is_merged_opt_enabled = false ∧
      p.is_subcommand_enabled = false) := Or.inr ⟨hb, hm, hs⟩
  rw [parse_loop_cons, parse_loop_cons,
    token_step_at hi (by rw [handle_part_inline hh]; exact hd),
    token_step_at hi (by rw [handle_part_bare hh]; exact hd),
    find_first_of_append v hh, find_first_of_not_mem hh]
  unfold option_step
  by_cases h1 : k ≠ 0 ∧ d.mod = .SUB
  · rw [if_pos h1, if_pos h1]
  · rw [if_neg h1, if_neg h1]
    by_cases h2 : d.number = .ZERO_ONE ∧ data_find info1.opt_data d.name ≠ none
    · rw [if_pos h2, if_pos h2]
      simp
    · rw [if_neg h2, if_neg h2]
      simp only [ha, drop_inline, List.head?_cons, List.tail_cons]
      cases hst : store d h v info1 with
      | error e =>
        obtain ⟨e2, he2⟩ := store_handle_error h (h ++ '=' :: v) hst
        simp [he2]
      | ok x =>
        rw [store_handle_ok h (h ++ '=' :: v) hst]
        simp only
        rw [parse_loop_index p post.length post (le_refl _) (k + 1) (k + 2) x (by omega)
          (by omega)]

/-- C16 as amended: in standard mode, for an option with assignment EQ_MAYBE
reached by the handle `h`, and tokens `pre` whose parse does not end in
"missing an argument" (so that the token after `pre` is not the argument of the
last option of `pre`): the parses of `pre ++ [h=v] ++ post` and of
`pre ++ [h, v] ++ post` both fail or both succeed with the same result; the
parse of `pre ++ [h]` throws a `parse_error`, and it is "missing an argument"
when `pre` parses, the option is not a subcommand after the first token and is
not a ZERO_ONE option seen before. -/
theorem eq_maybe_forms_agree (p : opt_parser_t) (pre post : List (List Char))
    (h v : List Char) (d : option_t)
    (hb : p.is_bsd_opt_enabled = false) (hm : p.is_merged_opt_enabled = false)
    (hs : p.is_subcommand_enabled = false) (hh : '=' ∉ h)
    (hd : map_find p.handle_map h = some d) (ha : d.assignment = .EQ_MAYBE)
    (hpre : ∀ g, p.parse pre ≠ .error (.parse_error (.missing_an_argument g))) :
    (∀ info, p.parse (pre ++ (h ++ '=' :: v) :: post) = .ok info ↔
      p.parse (pre ++ h :: v :: post) = .ok info) ∧
    (∃ e, p.parse (pre ++ [h]) = .error (.parse_error e)) ∧
    (∀ info1, p.parse pre = .ok info1 → ¬(pre ≠ [] ∧ d.mod = .SUB) →
      (d.number = .ZERO_ONE → info1.has d.name = false) →
      p.parse (pre ++ [h]) = .error (.parse_error (.missing_an_argument h))) := by
  have hg : ¬(p.is_subcommand_enabled = true ∧ p.mod_count = 0) := by simp [hs]
  have hi : pre.length ≠ 0 ∨ (p.is_bsd_opt_enabled = false ∧ p.is_merged_opt_enabled = false) :=
    Or.inr ⟨hb, hm⟩
  have hlast : ∀ info1, p.parse pre = .ok info1 →
      p.parse (pre ++ [h]) = match option_step d pre.length h none none info1 with
        | .error e => .error e
        | .ok (false, info2) => .ok info2
        | .ok (true, info2) => .ok info2 := by
    intro info1 hok
    rw [parse_after hok, parse_loop_cons, token_step_bare hi hh hd]
    simp only [List.head?_nil, List.tail_nil, parse_loop]
  refine ⟨?_, ?_, ?_⟩
  · intro info
    cases hp : p.parse pre with
    | ok info1 =>
      rw [parse_after hp, parse_after hp]
      exact eq_maybe_forms_loop hb hm hs hh hd ha v post _ _ _
    | error e =>
      have hne : ∀ g, e ≠ .parse_error (.missing_an_argument g) := by
        intro g he
        exact hpre g (by rw [hp, he])
      rw [parse_eq_loop hg] at hp
      rw [parse_eq_loop hg, parse_eq_loop hg,
        (parse_loop_append p _ pre.length pre (le_refl _) 0 _).2 e hp hne,
        (parse_loop_append p _ pre.length pre (le_refl _) 0 _).2 e hp hne]
  · cases hp : p.parse pre with
    | ok info1 =>
      rw [hlast info1 hp]
      cases ho : option_step d pre.length h none none info1 with
      | error e =>
        obtain ⟨pe, rfl⟩ := option_step_error_kind ho
        exact ⟨pe, rfl⟩
      | ok x =>
        exfalso
        unfold option_step at ho
        split at ho
        · cases ho
        · split at ho
          · cases ho
          · simp [ha] at ho
    | error e =>
      have hne : ∀ g, e ≠ .parse_error (.missing_an_argument g) := by
        intro g he
        exact hpre g (by rw [hp, he])
      rw [parse_eq_loop hg] at hp
      obtain ⟨pe, rfl⟩ := parse_loop_error p pre.length pre (le_refl _) 0 _ e hp
      rw [parse_eq_loop hg, (parse_loop_append p _ pre.length pre (le_refl _) 0 _).2 _ hp hne]
      exact ⟨pe, rfl⟩
  · intro info1 hok hsub hnot
    rw [hlast info1 hok]
    unfold option_step
    rw [if_neg (not_sub_after hsub), if_neg (not_stored hnot)]
    simp [ha]

/-- C16 as amended, at `-age=?i` of `t/20-option-assignment.cpp` between the
tokens `data` and `other`: `-age=42` and `-age 42` give the same result. -/
theorem eq_maybe_forms_agree_witness :
    parser_t20.parse ([str "data"] ++ (str "-age" ++ '=' :: str "42") :: [str "other"])
      = .ok { rem := [str "data", str "other"], opt_data := [(str "age", str "42")] } ∧
    parser_t20.parse ([str "data"] ++ str "-age" :: str "42" :: [str "other"])
      = .ok { rem := [str "data", str "other"], opt_data := [(str "age", str "42")] } ∧
    parser_t20.parse ([str "data"] ++ [str "-age"])
      = .error (.parse_error (.missing_an_argument (str "-age"))) :=
  have w := eq_maybe_forms_agree parser_t20 [str "data"] [str "other"] (str "-age") (str "42")
    { option_t.default with assignment := .EQ_MAYBE, data_type := .INTEGER, name := str "age" }
    (by decide!) (by decide!) (by decide!) (by decide!) (by decide!) (by decide!)
    (by
      intro g hc
      have h0 : parser_t20.parse [str "data"] = .ok { rem := [str "data"], opt_data := [] } := by
        decide!
      rw [h0] at hc
      cases hc)
  ⟨by decide!, (w.1 _).1 (by decide!),
   w.2.2 { rem := [str "data"], opt_data := [] } (by decide!) (by decide!) (by decide!)⟩

/-- C16 refuted: with `pre = [-wife]`, whose last option takes the next token
as its value, `-wife -age=42` stores `-age=42` for `wife`, while
`-wife -age 42` stores `-age` for `wife` and leaves `42` in `rem`; and the
parse of `-wife -age`, which ends in the bare `-age`, succeeds. -/
theorem eq_maybe_forms_differ_after_value_option :
    parser_t20.parse ([str "-wife"] ++ [str "-age=42"] ++ [])
      = .ok { rem := [], opt_data := [(str "wife", str "-age=42")] } ∧
    parser_t20.parse ([str "-wife"] ++ [str "-age", str "42"] ++ [])
      = .ok { rem := [str "42"], opt_data := [(str "wife", str "-age")] } ∧
    parser_t20.parse ([str "-wife"] ++ [str "-age=42"] ++ [])
      ≠ parser_t20.parse ([str "-wife"] ++ [str "-age", str "42"] ++ []) ∧
    parser_t20.parse ([str "-wife"] ++ [str "-age"])
      = .ok { rem := [], opt_data := [(str "wife", str "-age")] } := by
  decide!

/-! ### The modifier and the count of subcommands (C11, C14) -/

/-- An iteration of the loop of `option` does not lower `mod_count`, and an
option with the modifier SUB comes with subcommands enabled and a count that
is not 0. -/
theorem exec_count_done {sub : Bool} {c : Nat} {m m1 : Machine} {input : Option Char}
    (hk : c ≤ m.mod_count ∧ (m.opt.mod = .SUB → sub = true ∧ m.mod_count ≠ 0))
    (h : exec sub m input = .done m1) :
    c ≤ m1.mod_count ∧ (m1.opt.mod = .SUB → sub = true ∧ m1.mod_count ≠ 0) := by
  obtain ⟨h1, h2⟩ := hk
  cases input <;> cases hs : m.state <;>
    simp only [exec, exec_NONE, hs, Machine.fail] at h <;>
    (repeat' split at h) <;>
    first
      | (cases h; done)
      | (cases h; exact ⟨h1, h2⟩)
      | (cases h; simp_all; omega)

theorem exec_count_throw {sub : Bool} {c n : Nat} {m : Machine} {input : Option Char}
    {e : Failure} (hk : c ≤ m.mod_count) (h : exec sub m input = .throw e n) : c ≤ n := by
  cases input <;> cases hs : m.state <;>
    simp only [exec, exec_NONE, hs, Machine.fail] at h <;>
    (repeat' split at h) <;>
    first
      | (cases h; done)
      | (cases h; exact hk)

/-- An iteration of the loop of `option` outside the states MOD and MOD_FN, or
with subcommands disabled, leaves the modifier and `mod_count` as they are. -/
theorem exec_keeps_done {sub : Bool} {m m1 : Machine} {input : Option Char}
    (hk : sub = false ∨ (m.state ≠ .MOD ∧ m.state ≠ .MOD_FN))
    (h : exec sub m input = .done m1) :
    m1.opt.mod = m.opt.mod ∧ m1.mod_count = m.mod_count ∧
      (sub = false ∨ (m1.state ≠ .MOD ∧ m1.state ≠ .MOD_FN)) := by
  cases input <;> cases hs : m.state <;>
    simp only [exec, exec_NONE, hs, Machine.fail] at h <;>
    (repeat' split at h) <;>
    first
      | (cases h; done)
      | (cases h; simp_all)

theorem exec_keeps_throw {sub : Bool} {m : Machine} {input : Option Char} {e : Failure} {n : Nat}
    (h : exec sub m input = .throw e n) : n = m.mod_count := by
  cases input <;> cases hs : m.state <;>
    simp only [exec, exec_NONE, hs, Machine.fail] at h <;>
    (repeat' split at h) <;>
    first
      | (cases h; done)
      | (cases h; rfl)

theorem loop_count {sub : Bool} {c : Nat} :
    ∀ (spec : List Char) (m : Machine),
      c ≤ m.mod_count ∧ (m.opt.mod = .SUB → sub = true ∧ m.mod_count ≠ 0) →
      (∀ m1, loop sub m spec = .done m1 →
        c ≤ m1.mod_count ∧ (m1.opt.mod = .SUB → sub = true ∧ m1.mod_count ≠ 0)) ∧
      (∀ e n, loop sub m spec = .throw e n → c ≤ n) := by
  intro spec
  induction spec with
  | nil =>
    intro m hk
    simp only [loop]
    exact ⟨fun m1 h => exec_count_done hk h, fun e n h => exec_count_throw hk.1 h⟩
  | cons ch rest ih =>
    intro m hk
    simp only [loop]
    cases he : exec sub m (some ch) with
    | throw e n =>
      simp only
      exact ⟨fun m1 h => (by cases h), fun e1 n1 h => (by cases h; exact exec_count_throw hk.1 he)⟩
    | done m1 =>
      simp only
      exact ih m1 (exec_count_done hk he)

theorem loop_keeps {sub : Bool} :
    ∀ (spec : List Char) (m : Machine),
      (sub = false ∨ (m.state ≠ .MOD ∧ m.state ≠ .MOD_FN)) →
      (∀ m1, loop sub m spec = .done m1 → m1.opt.mod = m.opt.mod ∧ m1.mod_count = m.mod_count) ∧
      (∀ e n, loop sub m spec = .throw e n → n = m.mod_count) := by
  intro spec
  induction spec with
  | nil =>
    intro m hk
    simp only [loop]
    exact ⟨fun m1 h => ⟨(exec_keeps_done hk h).1, (exec_keeps_done hk h).2.1⟩,
      fun e n h => exec_keeps_throw h⟩
  | cons ch rest ih =>
    intro m hk
    simp only [loop]
    cases he : exec sub m (some ch) with
    | throw e n =>
      simp only
      exact ⟨fun m1 h => (by cases h), fun e1 n1 h => (by cases h; exact exec_keeps_throw he)⟩
    | done m1 =>
      simp only
      obtain ⟨k1, k2, k3⟩ := exec_keeps_done hk he
      obtain ⟨i1, i2⟩ := ih m1 k3
      exact ⟨fun m2 h => ⟨(i1 m2 h).1.trans k1, (i1 m2 h).2.trans k2⟩,
        fun e n h => (i2 e n h).trans k2⟩

/-- What `compile` gives from the result of the loop. -/
theorem compile_of_loop (sub : Bool) (c : Nat) (spec name : List Char) :
    (∀ opt handles n, compile sub c spec name = .done (opt, handles, n) →
      ∃ m, loop sub (Machine.start c) spec = .done m ∧ opt.mod = m.opt.mod ∧ n = m.mod_count) ∧
    (∀ e n, compile sub c spec name = .throw e n →
      loop sub (Machine.start c) spec = .throw e n ∨
        ∃ m, loop sub (Machine.start c) spec = .done m ∧ n = m.mod_count) := by
  unfold compile
  cases hl : loop sub (Machine.start c) spec with
  | throw e n => simp
  | done m =>
    simp only
    split
    · simp
    · split
      · simp
      · constructor
        · intro opt handles n h
          cases h
          exact ⟨m, rfl, rfl, rfl⟩
        · intro e n h
          cases h

theorem register_mod_count (p : opt_parser_t) (opt : option_t) (handles : List (List Char)) :
    (register p opt handles).2.mod_count = p.mod_count := by
  unfold register
  dsimp only
  (repeat' split) <;> rfl

/-- The `mod_count` after a call of `option` is the one `compile` ends with. -/
theorem option_mod_count (p : opt_parser_t) (spec name : List Char) :
    (∀ opt handles n, compile p.is_subcommand_enabled p.mod_count spec name
        = .done (opt, handles, n) → (p.option spec name).2.mod_count = n) ∧
    (∀ e n, compile p.is_subcommand_enabled p.mod_count spec name = .throw e n →
      (p.option spec name).2.mod_count = n) := by
  constructor
  · intro opt handles n h
    rw [option_of_compile_done h, register_mod_count]
  · intro e n h
    rw [option_of_compile_throw h]

theorem insert_handles_mem (opt : option_t) :
    ∀ (handles : List (List Char)) (handle_map : List (List Char × option_t))
      (kd : List Char × option_t), kd ∈ (insert_handles opt handles handle_map).1 →
      kd ∈ handle_map ∨ kd.2 = opt := by
  intro handles
  induction handles with
  | nil => intro hm kd h; simp [insert_handles] at h; exact Or.inl h
  | cons k r ih =>
    intro hm kd h
    unfold insert_handles at h
    split at h
    · rcases ih _ _ h with h1 | h1
      · rcases List.mem_append.1 h1 with h2 | h2
        · exact Or.inl h2
        · simp at h2; right; rw [h2]
      · exact Or.inr h1
    · exact Or.inl h

theorem register_handle_map (p : opt_parser_t) (opt : option_t) (handles : List (List Char))
    (kd : List Char × option_t) (h : kd ∈ (register p opt handles).2.handle_map) :
    kd ∈ p.handle_map ∨ kd.2 = opt := by
  unfold register at h
  dsimp only at h
  split at h
  · split at h <;> exact insert_handles_mem _ _ _ _ h
  · split at h
    · split at h <;> exact insert_handles_mem _ _ _ _ h
    · exact Or.inl h

theorem map_find_mem {handle_map : List (List Char × option_t)} {h : List Char} {d : option_t}
    (hf : map_find handle_map h = some d) : (h, d) ∈ handle_map := by
  induction handle_map with
  | nil => simp [map_find] at hf
  | cons x r ih =>
    obtain ⟨k, v⟩ := x
    simp only [map_find] at hf
    split at hf
    · rename_i hk
      cases hf
      rw [hk]
      exact List.mem_cons_self _ _
    · exact List.mem_cons_of_mem _ (ih hf)

/-- In every reachable parser, an option of the handle map with the modifier
SUB comes with a `mod_count` that is not 0. -/
theorem reachable_sub_count {p : opt_parser_t} (hr : Reachable p) :
    ∀ kd ∈ p.handle_map, kd.2.mod = .SUB → p.mod_count ≠ 0 := by
  induction hr with
  | new => intro kd h; simp [opt_parser_t.new] at h
  | set p c val _ ih =>
    intro kd h hs
    have e1 : (p.set c val).handle_map = p.handle_map := by
      cases c <;> simp only [opt_parser_t.set] <;> (repeat' split) <;> rfl
    have e2 : (p.set c val).mod_count = p.mod_count := by
      cases c <;> simp only [opt_parser_t.set] <;> (repeat' split) <;> rfl
    rw [e1] at h
    rw [e2]
    exact ih kd h hs
  | clear_options p _ _ => intro kd h; simp [opt_parser_t.clear_options] at h
  | option p spec name _ ih =>
    intro kd h hs
    have hstart : p.mod_count ≤ (Machine.start p.mod_count).mod_count ∧
        ((Machine.start p.mod_count).opt.mod = .SUB →
          p.is_subcommand_enabled = true ∧ (Machine.start p.mod_count).mod_count ≠ 0) := by
      simp [Machine.start, option_t.default]
    obtain ⟨l1, l2⟩ := loop_count spec (Machine.start p.mod_count) hstart
    obtain ⟨c1, c2⟩ := compile_of_loop p.is_subcommand_enabled p.mod_count spec name
    cases hc : compile p.is_subcommand_enabled p.mod_count spec name with
    | throw e n =>
      rw [option_of_compile_throw hc] at h ⊢
      have hn : p.mod_count ≤ n := by
        rcases c2 e n hc with hl | ⟨m, hl, rfl⟩
        · exact l2 e n hl
        · exact (l1 m hl).1
      have := ih kd h hs
      simp only
      omega
    | done r =>
      obtain ⟨opt, handles, n⟩ := r
      obtain ⟨m, hl, hmod, rfl⟩ := c1 opt handles _ hc
      obtain ⟨k1, k2⟩ := l1 m hl
      rw [(option_mod_count p spec name).1 opt handles _ hc]
      rw [option_of_compile_done hc] at h
      rcases register_handle_map _ _ _ _ h with h1 | h1
      · have := ih kd h1 hs
        omega
      · rw [h1, hmod] at hs
        exact (k2 hs).2

theorem option_mod_of_loop (p : opt_parser_t) (spec name : List Char) (X : Mod_Prop) (N : Nat)
    (h1 : ∀ m, loop p.is_subcommand_enabled (Machine.start p.mod_count) spec = .done m →
      m.opt.mod = X ∧ m.mod_count = N)
    (h2 : ∀ e n, loop p.is_subcommand_enabled (Machine.start p.mod_count) spec = .throw e n →
      n = N) :
    (p.option spec name).2.mod_count = N ∧
      ∀ opt, (p.option spec name).1 = .ok opt → opt.mod = X := by
  obtain ⟨c1, c2⟩ := compile_of_loop p.is_subcommand_enabled p.mod_count spec name
  cases hc : compile p.is_subcommand_enabled p.mod_count spec name with
  | throw e n =>
    have hn : n = N := by
      rcases c2 e n hc with hl | ⟨m, hl, rfl⟩
      · exact h2 e n hl
      · exact (h1 m hl).2
    rw [option_of_compile_throw hc]
    exact ⟨hn, fun opt h => by cases h⟩
  | done r =>
    obtain ⟨opt, handles, n⟩ := r
    obtain ⟨m, hl, hmod, hn⟩ := c1 opt handles n hc
    refine ⟨?_, ?_⟩
    · rw [(option_mod_count p spec name).1 opt handles n hc, hn]
      exact (h1 m hl).2
    · intro o ho
      rw [option_of_compile_done hc] at ho
      rw [register_ok ho, hmod]
      exact (h1 m hl).1

theorem loop_start_none (sub : Bool) (c : Nat) {rest : List Char} (hrest : rest.head? ≠ some '[') :
    loop sub (Machine.start c) rest = loop sub { Machine.start c with state := .NONE } rest := by
  cases rest with
  | nil => simp [loop, exec, exec_NONE, Machine.start]
  | cons ch r =>
    have hch : ch ≠ '[' := by
      intro e
      exact hrest (by simp [e])
    simp [loop, exec, Machine.start, hch]

/-- C11: for a spec `rest` that does not begin with `[`. With subcommands
disabled, the declaration `[&]rest` does what the declaration `rest` does (the
same result or throw, the same parser afterwards), leaves `mod_count` as it was
and, when it returns, returns the modifier NONE. With subcommands enabled, it
raises `mod_count` by one and, when it returns, returns the modifier SUB. -/
theorem sub_modifier_setting (p : opt_parser_t) (rest name : List Char)
    (hrest : rest.head? ≠ some '[') :
    (p.is_subcommand_enabled = false →
      p.option ('[' :: '&' :: ']' :: rest) name = p.option rest name ∧
      (p.option ('[' :: '&' :: ']' :: rest) name).2.mod_count = p.mod_count ∧
      ∀ opt, (p.option ('[' :: '&' :: ']' :: rest) name).1 = .ok opt → opt.mod = .NONE) ∧
    (p.is_subcommand_enabled = true →
      (p.option ('[' :: '&' :: ']' :: rest) name).2.mod_count = p.mod_count + 1 ∧
      ∀ opt, (p.option ('[' :: '&' :: ']' :: rest) name).1 = .ok opt → opt.mod = .SUB) := by
  constructor
  · intro hs
    have hl : loop false (Machine.start p.mod_count) ('[' :: '&' :: ']' :: rest)
        = loop false (Machine.start p.mod_count) rest := by
      rw [loop_start_none false _ hrest]
      simp [loop, exec, Machine.start]
    have hopt : p.option ('[' :: '&' :: ']' :: rest) name = p.option rest name := by
      unfold opt_parser_t.option compile
      rw [hs, hl]
    refine ⟨hopt, ?_⟩
    rw [hopt]
    obtain ⟨k1, k2⟩ := @loop_keeps false rest (Machine.start p.mod_count) (Or.inl rfl)
    apply option_mod_of_loop p rest name .NONE p.mod_count
    · intro m hm
      rw [hs] at hm
      exact k1 m hm
    · intro e n hn
      rw [hs] at hn
      exact k2 e n hn
  · intro hs
    have hl : loop true (Machine.start p.mod_count) ('[' :: '&' :: ']' :: rest)
        = loop true { state := .NONE, opt := { option_t.default with mod := .SUB }, handles := [],
                      buf := [], mod_count := p.mod_count + 1 } rest := by
      simp [loop, exec, Machine.start]
    obtain ⟨k1, k2⟩ := @loop_keeps true rest
      { state := .NONE, opt := { option_t.default with mod := .SUB }, handles := [],
        buf := [], mod_count := p.mod_count + 1 } (Or.inr ⟨by simp, by simp⟩)
    apply option_mod_of_loop p _ name .SUB (p.mod_count + 1)
    · intro m hm
      rw [hs, hl] at hm
      exact k1 m hm
    · intro e n hn
      rw [hs, hl] at hn
      exact k2 e n hn

/-- C11 at `[&]deploy`: with subcommands disabled it is the declaration
`deploy`; with subcommands enabled it returns the modifier SUB and the count
goes from 0 to 1. -/
theorem sub_modifier_setting_witness :
    opt_parser_t.new.option (str "[&]deploy") [] = opt_parser_t.new.option (str "deploy") [] ∧
    (opt_parser_t.new.option (str "[&]deploy") []).1
      = .ok { option_t.default with name := str "deploy" } ∧
    (opt_parser_t.new.option (str "[&]deploy") []).2.mod_count = 0 ∧
    (parser_sub.option (str "[&]deploy") []).1
      = .ok { option_t.default with mod := .SUB, name := str "deploy" } ∧
    (parser_sub.option (str "[&]deploy") []).2.mod_count = parser_sub.mod_count + 1 :=
  have w0 := (sub_modifier_setting opt_parser_t.new (str "deploy") [] (by decide!)).1 (by decide!)
  have w1 := (sub_modifier_setting parser_sub (str "deploy") [] (by decide!)).2 (by decide!)
  ⟨w0.1, by decide!, w0.2.1, by decide!, w1.1⟩

/-- C14: in a reachable parser, when the token `t` after the non-empty tokens
`pre` resolves to an option with the modifier SUB and is not the argument of
the last option of `pre` (the parse of `pre` alone does not end in "missing an
argument"), the parse of `pre ++ t :: post` throws a `parse_error`; when `pre`
alone parses, it is "subcommand found after first argument". -/
theorem subcommand_after_first_fails (p : opt_parser_t) (pre post : List (List Char))
    (t : List Char) (d : option_t) (hr : Reachable p) (hne : pre ≠ [])
    (hd : map_find p.handle_map (handle_part t) = some d) (hsub : d.mod = .SUB)
    (hpre : ∀ g, p.parse pre ≠ .error (.parse_error (.missing_an_argument g))) :
    (∃ e, p.parse (pre ++ t :: post) = .error (.parse_error e)) ∧
    (∀ info1, p.parse pre = .ok info1 →
      p.parse (pre ++ t :: post)
        = .error (.parse_error .subcommand_found_after_first_argument)) := by
  have hcount : p.mod_count ≠ 0 := reachable_sub_count hr _ (map_find_mem hd) hsub
  have hg : ¬(p.is_subcommand_enabled = true ∧ p.mod_count = 0) := fun h => hcount h.2
  have hlen : pre.length ≠ 0 := by simpa using hne
  have hthrow : ∀ info1, p.parse pre = .ok info1 →
      p.parse (pre ++ t :: post)
        = .error (.parse_error .subcommand_found_after_first_argument) := by
    intro info1 hok
    rw [parse_after hok, parse_loop_cons, token_step_at (Or.inl hlen) hd]
    unfold option_step
    rw [if_pos ⟨hlen, hsub⟩]
  refine ⟨?_, hthrow⟩
  cases hp : p.parse pre with
  | ok info1 => exact ⟨_, hthrow info1 hp⟩
  | error e =>
    have hne : ∀ g, e ≠ .parse_error (.missing_an_argument g) := by
      intro g he
      exact hpre g (by rw [hp, he])
    rw [parse_eq_loop hg] at hp
    obtain ⟨pe, rfl⟩ := parse_loop_error p pre.length pre (le_refl _) 0 _ e hp
    rw [parse_eq_loop hg, (parse_loop_append p _ pre.length pre (le_refl _) 0 _).2 _ hp hne]
    exact ⟨pe, rfl⟩

/-- C14 at the parser with the subcommand `deploy`: `deploy` after `deploy`,
and `deploy=1` after `x`, are subcommands found after the first argument. -/
theorem subcommand_after_first_fails_witness :
    parser_deploy.parse ([str "deploy"] ++ str "deploy" :: [])
      = .error (.parse_error .subcommand_found_after_first_argument) ∧
    parser_deploy.parse [str "x", str "deploy=1"]
      = .error (.parse_error .subcommand_found_after_first_argument) :=
  ⟨(subcommand_after_first_fails parser_deploy [str "deploy"] [] (str "deploy")
      { option_t.default with mod := .SUB, name := str "deploy" }
      (Reachable.option _ _ _ (Reachable.set _ _ _ Reachable.new)) (by decide!) (by decide!)
      (by decide!)
      (by
        intro g hc
        have h0 : parser_deploy.parse [str "deploy"]
            = .ok { rem := [], opt_data := [(str "deploy", ['1'])] } := by decide!
        rw [h0] at hc
        cases hc)).2
      { rem := [], opt_data := [(str "deploy", ['1'])] } (by decide!),
   by decide!⟩

/-! ### Subcommand mode without a subcommand (C12, C13) -/

/-- C12 (code at the failing input): in subcommand mode, after the declaration
`[&]`, which throws "no handles found in option spec", the handle map and the
name set are empty and `mod_count` is 1, and `parse` does not throw "no
subcommands declared"; the same after `[&]deploy` and `clear_options()`. In
the new parser in subcommand mode `parse` does throw it. -/
theorem failed_or_cleared_subcommand_still_counts :
    (parser_sub.option (str "[&]") []).1
      = .error (.option_language_error .no_handles_found_in_option_spec) ∧
    (parser_sub.option (str "[&]") []).2.handle_map = [] ∧
    (parser_sub.option (str "[&]") []).2.name_set = [] ∧
    (parser_sub.option (str "[&]") []).2.is_subcommand_enabled = true ∧
    (parser_sub.option (str "[&]") []).2.mod_count = 1 ∧
    (parser_sub.option (str "[&]") []).2.parse [] = .ok { rem := [], opt_data := [] } ∧
    parser_deploy.clear_options.handle_map = [] ∧
    parser_deploy.clear_options.name_set = [] ∧
    parser_deploy.clear_options.is_subcommand_enabled = true ∧
    parser_deploy.clear_options.parse [str "data"] = .ok { rem := [str "data"], opt_data := [] } ∧
    parser_sub.parse [] = .error (.option_language_error .no_subcommands_declared) := by
  decide!

/-- C13 (code at the failing input): in subcommand mode with the one
subcommand `deploy` declared, the parses of the empty sequence, of `data` and
of `data x`, none of which begins with a subcommand, return without a throw. -/
theorem missing_subcommand_is_accepted :
    parser_deploy.is_subcommand_enabled = true ∧
    parser_deploy.handle_map.map Prod.fst = [str "deploy"] ∧
    parser_deploy.parse [] = .ok { rem := [], opt_data := [] } ∧
    parser_deploy.parse [str "data"] = .ok { rem := [str "data"], opt_data := [] } ∧
    parser_deploy.parse [str "data", str "x"]
      = .ok { rem := [str "data", str "x"], opt_data := [] } := by
  decide!

/-! ### A ZERO_ONE option given twice (C19) -/

/-- C19 (code at the failing input): `--nums=[i]` compiles to a ZERO_ONE LIST
option, and the parse of `--nums= --nums=1`, where its handle occurs twice,
returns without a throw: the empty argument of the first occurrence stores
nothing, so the test for a repetition finds no value. With `--nums=1` as the
first occurrence the parse throws. -/
theorem zero_one_list_option_given_twice :
    (opt_parser_t.new.option (str "--nums=[i]") []).1
      = .ok { option_t.default with assignment := .EQ_REQUIRED, collection := .LIST,
                                    data_type := .INTEGER, name := str "nums" } ∧
    ({ option_t.default with assignment := .EQ_REQUIRED, collection := .LIST,
                             data_type := .INTEGER, name := str "nums" } : option_t).number
      = .ZERO_ONE ∧
    parser_nums.parse [str "--nums=", str "--nums=1"]
      = .ok { rem := [], opt_data := [(str "nums", str "1")] } ∧
    parser_nums.parse [str "--nums=1", str "--nums=1"]
      = .error (.parse_error (.found_more_than_once (str "--nums=1"))) := by
  decide!

/-! ### Float arguments and list elements (C21, C27) -/

/-- C21 (code at the failing input): for the SCALAR FLOAT option `-ratio=f`,
the values `1x`, `12a`, `1.5.2` and `1.5x`, which are not of the form
INTEGER or INTEGER.INTEGER, are accepted and stored: the scan leaves its loop
at the first character it has no case for and keeps the state PRE or POST it
had reached. The values `12`, `1.5` are accepted and `.5`, `1.` and the empty
value are rejected. -/
theorem float_scan_accepts_trailing_characters :
    parser_float.parse [str "-ratio=1x"]
      = .ok { rem := [], opt_data := [(str "ratio", str "1x")] } ∧
    parser_float.parse [str "-ratio=12a"]
      = .ok { rem := [], opt_data := [(str "ratio", str "12a")] } ∧
    parser_float.parse [str "-ratio=1.5.2"]
      = .ok { rem := [], opt_data := [(str "ratio", str "1.5.2")] } ∧
    parser_float.parse [str "-ratio=1.5x"]
      = .ok { rem := [], opt_data := [(str "ratio", str "1.5x")] } ∧
    parser_float.parse [str "-ratio=12"]
      = .ok { rem := [], opt_data := [(str "ratio", str "12")] } ∧
    parser_float.parse [str "-ratio=1.5"]
      = .ok { rem := [], opt_data := [(str "ratio", str "1.5")] } ∧
    parser_float.parse [str "-ratio=.5"]
      = .error (.parse_error (.is_not_a_float_argument (str ".5"))) ∧
    parser_float.parse [str "-ratio=1."]
      = .error (.parse_error (.is_not_a_float_argument (str "1."))) ∧
    parser_float.parse [str "-ratio="]
      = .error (.parse_error (.is_not_a_float_argument [])) := by
  decide!

/-- C27 (code at the failing input): for the LIST FLOAT option `--vals=[f]`,
the value `1.5,x` is accepted and `x` is stored, although the SCALAR FLOAT
option `-ratio=f` rejects `x`: the state of the float scan is not set back to
START between the elements, so `x` is scanned from the state POST that `1.5`
has left. The value `x,1.5` is rejected. -/
theorem list_float_state_is_shared :
    parser_float.parse [str "--vals=1.5,x"]
      = .ok { rem := [], opt_data := [(str "vals", str "1.5"), (str "vals", str "x")] } ∧
    parser_float.parse [str "-ratio=1.5"]
      = .ok { rem := [], opt_data := [(str "ratio", str "1.5")] } ∧
    parser_float.parse [str "-ratio=x"]
      = .error (.parse_error (.is_not_a_float_argument (str "x"))) ∧
    parser_float.parse [str "--vals=x,1.5"]
      = .error (.parse_error (.is_not_a_float_argument (str "x"))) := by
  decide!

/-! ### The modifier production and the failures of `option` (C28, C30) -/

/-- C28 (code at the failing input): the declarations `[x&]deploy` and
`[[&]deploy` return the option `deploy`, as `[&]deploy` does (with the
modifier SUB when subcommands are enabled): state MOD_FN has no case for a
character other than `&`, `<`, `>`, `!` and stays where it is. -/
theorem modifier_skips_other_characters :
    (opt_parser_t.new.option (str "[x&]deploy") []).1
      = .ok { option_t.default with name := str "deploy" } ∧
    (opt_parser_t.new.option (str "[[&]deploy") []).1
      = .ok { option_t.default with name := str "deploy" } ∧
    (opt_parser_t.new.option (str "[&]deploy") []).1
      = .ok { option_t.default with name := str "deploy" } ∧
    (parser_sub.option (str "[x&]deploy") []).1
      = .ok { option_t.default with mod := .SUB, name := str "deploy" } := by
  decide!

/-- C30 (code at the failing input): the declarations `+a` and `--count*[i]`
with an empty explicit name end in `std::out_of_range`, which is not an
`option_language_error`. The loop leaves the handles `+`, and `--count`
followed by the empty handle; the name derivation reads `maybe_name[1]`, which
for the empty handle is past the end of the string. -/
theorem declaration_throws_out_of_range :
    (opt_parser_t.new.option (str "+a") []).1 = .error .out_of_range ∧
    (opt_parser_t.new.option (str "--count*[i]") []).1 = .error .out_of_range ∧
    (∀ e, (opt_parser_t.new.option (str "+a") []).1 ≠ .error (.option_language_error e)) ∧
    loop false (Machine.start 0) (str "+a")
      = .done { state := .DONE, opt := option_t.default, handles := [str "+"], buf := [],
                mod_count := 0 } ∧
    loop false (Machine.start 0) (str "--count*[i]")
      = .done { state := .DONE,
                opt := { option_t.default with number := .ZERO_MANY, collection := .LIST,
                                               data_type := .INTEGER },
                handles := [str "--count", []], buf := [], mod_count := 0 } ∧
    derive_name [str "--count", []] [] = .error .out_of_range := by
  refine ⟨by decide!, by decide!, ?_, by decide!, by decide!, by decide!⟩
  intro e h
  have h0 : (opt_parser_t.new.option (str "+a") []).1 = .error .out_of_range := by decide!
  rw [h0] at h
  cases h

/-! ### Merged mode and the prefix (C25) -/

/-- C25 (code at the failing input): in merged mode with the flags `a` and
`b`, the first token `ab`, which has no prefix, is decoded as the two flags; in
standard mode it is an unknown token and goes to `rem`. The first tokens `-ab`
and `--ab` are decoded as the two flags. -/
theorem merged_decodes_without_the_prefix :
    parser_merged.is_merged_opt_enabled = true ∧
    parser_merged.parse [str "ab", str "x"]
      = .ok { rem := [str "x"], opt_data := [(str "all", ['1']), (str "bee", ['1'])] } ∧
    parser_flags.parse [str "ab", str "x"]
      = .ok { rem := [str "ab", str "x"], opt_data := [] } ∧
    parser_merged.parse [str "-ab", str "x"]
      = .ok { rem := [str "x"], opt_data := [(str "all", ['1']), (str "bee", ['1'])] } ∧
    parser_merged.parse [str "--ab", str "x"]
      = .ok { rem := [str "x"], opt_data := [(str "all", ['1']), (str "bee", ['1'])] } := by
  decide!

/-! ### Tokens that are not registered handles (C23) -/

theorem set_find_some {s : List option_t} {name : List Char} {e : option_t}
    (h : set_find s name = some e) : e ∈ s ∧ e.name = name := by
  induction s with
  | nil => simp [set_find] at h
  | cons o r ih =>
    simp only [set_find] at h
    split at h
    · rename_i ho
      cases h
      exact ⟨List.mem_cons_self _ _, ho⟩
    · exact ⟨List.mem_cons_of_mem _ (ih h).1, (ih h).2⟩

theorem set_find_none {s : List option_t} {name : List Char}
    (h : set_find s name = none) : ∀ e ∈ s, e.name ≠ name := by
  induction s with
  | nil => intro e he; simp at he
  | cons o r ih =>
    simp only [set_find] at h
    split at h
    · cases h
    · rename_i ho
      intro e he
      rcases List.mem_cons.1 he with h1 | h1
      · rw [h1]; exact ho
      · exact ih h e h1

theorem compatible_refl (a : option_t) : a.compatible a = true := by
  simp [option_t.compatible]

theorem compatible_of_both {a b e : option_t} (ha : a.compatible e = true)
    (hb : b.compatible e = true) : a.compatible b = true := by
  rw [compatible_iff] at ha hb ⊢
  obtain ⟨h1, h2, h3, h4⟩ := ha
  obtain ⟨g1, g2, g3, g4⟩ := hb
  exact ⟨h1.trans g1.symm, h2.trans g2.symm, h3.trans g3.symm, h4.trans g4.symm⟩

theorem register_registry_ok (p : opt_parser_t) (opt : option_t) (handles : List (List Char))
    (h : registry_ok p.handle_map p.name_set) :
    registry_ok (register p opt handles).2.handle_map (register p opt handles).2.name_set := by
  obtain ⟨hK, hC, hB⟩ := h
  have hmem := register_handle_map p opt handles
  cases hf : set_find p.name_set opt.name with
  | none =>
    have hno := set_find_none hf
    have hns : (register p opt handles).2.name_set = p.name_set ++ [opt] := by
      unfold register
      rw [hf]
      dsimp only
      split <;> rfl
    rw [hns]
    refine ⟨?_, ?_, ?_⟩
    · intro e1 h1 e2 h2 hn
      rcases List.mem_append.1 h1 with h1 | h1 <;> rcases List.mem_append.1 h2 with h2 | h2
      · exact hK e1 h1 e2 h2 hn
      · simp at h2; rw [h2] at hn; exact absurd hn (hno e1 h1)
      · simp at h1; rw [h1] at hn; exact absurd hn.symm (hno e2 h2)
      · simp at h1 h2; rw [h1, h2]
    · intro kd hkd
      rcases hmem kd hkd with h1 | h1
      · obtain ⟨e, he, hn⟩ := hC kd h1
        exact ⟨e, List.mem_append.2 (Or.inl he), hn⟩
      · exact ⟨opt, by simp, by rw [h1]⟩
    · intro kd hkd e he hn
      rcases hmem kd hkd with h1 | h1 <;> rcases List.mem_append.1 he with h2 | h2
      · exact hB kd h1 e h2 hn
      · simp at h2
        obtain ⟨e1, he1, hn1⟩ := hC kd h1
        rw [h2] at hn
        exact absurd (hn1.trans hn.symm) (hno e1 he1)
      · rw [h1] at hn; exact absurd hn (hno e h2)
      · simp at h2; rw [h1, h2]; exact compatible_refl opt
  | some found =>
    obtain ⟨hfm, hfn⟩ := set_find_some hf
    by_cases hc : opt.compatible found = true
    · have hns : (register p opt handles).2.name_set = p.name_set := by
        unfold register
        rw [hf]
        dsimp only
        rw [if_pos hc]
        split <;> rfl
      rw [hns]
      refine ⟨hK, ?_, ?_⟩
      · intro kd hkd
        rcases hmem kd hkd with h1 | h1
        · exact hC kd h1
        · exact ⟨found, hfm, by rw [h1]; exact hfn⟩
      · intro kd hkd e he hn
        rcases hmem kd hkd with h1 | h1
        · exact hB kd h1 e he hn
        · rw [h1] at hn ⊢
          have : e = found := hK e he found hfm (hn.trans hfn.symm)
          rw [this]; exact hc
    · have hp : (register p opt handles).2 = p := by
        unfold register
        rw [hf]
        dsimp only
        rw [if_neg hc]
      rw [hp]
      exact ⟨hK, hC, hB⟩

theorem option_registry_ok (p : opt_parser_t) (spec name : List Char)
    (h : registry_ok p.handle_map p.name_set) :
    registry_ok (p.option spec name).2.handle_map (p.option spec name).2.name_set := by
  unfold opt_parser_t.option
  split
  · exact h
  · exact register_registry_ok _ _ _ h

theorem set_registry (p : opt_parser_t) (c : Setting) (val : Bool) :
    (p.set c val).handle_map = p.handle_map ∧ (p.set c val).name_set = p.name_set := by
  cases c <;> cases val <;> cases he : p.empty <;> simp [opt_parser_t.set, he]

theorem reachable_registry_ok {p : opt_parser_t} (hr : Reachable p) :
    registry_ok p.handle_map p.name_set := by
  induction hr with
  | new => exact ⟨by intro e1 h1; simp [opt_parser_t.new] at h1,
      by intro kd h1; simp [opt_parser_t.new] at h1, by intro kd h1; simp [opt_parser_t.new] at h1⟩
  | set p c val _ ih => rw [(set_registry p c val).1, (set_registry p c val).2]; exact ih
  | option p spec name _ ih => exact option_registry_ok p spec name ih
  | clear_options p _ ih =>
    exact ⟨by intro e1 h1; simp [opt_parser_t.clear_options] at h1,
      by intro kd h1; simp [opt_parser_t.clear_options] at h1,
      by intro kd h1; simp [opt_parser_t.clear_options] at h1⟩

/-- C29: in every parser that a sequence of calls of `option` (returning or
throwing), `set` and `clear_options` builds from the new parser, two entries
of the handle map whose options have the same name hold compatible options
(equal cardinality, assignment, collection and value type), every option of
the handle map is compatible with every option of that name in the name set,
the name of every option of the handle map is in the name set, and the name
set holds no two different options of one name. -/
theorem registry_invariant (p : opt_parser_t) (hr : Reachable p) :
    (∀ kd1 ∈ p.handle_map, ∀ kd2 ∈ p.handle_map, kd1.2.name = kd2.2.name →
      kd1.2.compatible kd2.2 = true ∧ kd1.2.number = kd2.2.number ∧
        kd1.2.assignment = kd2.2.assignment ∧ kd1.2.collection = kd2.2.collection ∧
        kd1.2.data_type = kd2.2.data_type) ∧
    (∀ kd ∈ p.handle_map, ∀ e ∈ p.name_set, e.name = kd.2.name → kd.2.compatible e = true) ∧
    (∀ kd ∈ p.handle_map, ∃ e, set_find p.name_set kd.2.name = some e ∧
      kd.2.compatible e = true) ∧
    (∀ e1 ∈ p.name_set, ∀ e2 ∈ p.name_set, e1.name = e2.name → e1 = e2) := by
  obtain ⟨hK, hC, hB⟩ := reachable_registry_ok hr
  refine ⟨?_, hB, ?_, hK⟩
  · intro kd1 h1 kd2 h2 hn
    obtain ⟨e, he, hne⟩ := hC kd1 h1
    have hc := compatible_of_both (hB kd1 h1 e he hne) (hB kd2 h2 e he (hne.trans hn))
    exact ⟨hc, (compatible_iff _ _).1 hc⟩
  · intro kd h1
    obtain ⟨e, he, hne⟩ := hC kd h1
    cases hf : set_find p.name_set kd.2.name with
    | none => exact absurd hne (set_find_none hf e he)
    | some e1 =>
      obtain ⟨h2, h3⟩ := set_find_some hf
      exact ⟨e1, rfl, hB kd h1 e1 h2 h3⟩

/-- C29 at the parser after the declaration `-aa` and the declaration
`-bb|-aa` with the name `aa`, which throws after it has put `-bb` into the
handle map: the two entries of the handle map are compatible with the option
`aa` of the name set. -/
theorem registry_invariant_witness :
    (parser_aa.option (str "-bb|-aa") (str "aa")).1
      = .error (.option_language_error (.handle_repeated (str "-aa"))) ∧
    (parser_aa.option (str "-bb|-aa") (str "aa")).2.handle_map.map (fun kd => kd.1)
      = [str "-aa", str "-bb"] ∧
    (∀ kd ∈ (parser_aa.option (str "-bb|-aa") (str "aa")).2.handle_map,
      ∃ e, set_find (parser_aa.option (str "-bb|-aa") (str "aa")).2.name_set kd.2.name = some e ∧
        kd.2.compatible e = true) :=
  ⟨by decide!, by decide!,
   (registry_invariant (parser_aa.option (str "-bb|-aa") (str "aa")).2
      (Reachable.option parser_aa (str "-bb|-aa") (str "aa")
        (Reachable.option opt_parser_t.new (str "-aa") [] Reachable.new))).2.2.1⟩

/-! ### The pieces of a LIST argument (C22) -/

theorem decode_chars_cons (p : opt_parser_t) (ch : Char) (rest : List Char) (a : Bool)
    (data : List (List Char × List Char)) :
    decode_chars p (ch :: rest) a data =
      match flag_lookup p ch with
      | none =>
        if a then .error (.parse_error .all_or_none_must_be_special) else .ok (a, data)
      | some opt =>
        if opt.assignment = .NO_ASSIGN then
          if opt.number = .ZERO_ONE ∧ data_find data opt.name ≠ none then
            .error (.parse_error .option_repeated_more_than_allowed)
          else decode_chars p rest true (data ++ [(opt.name, default_data)])
        else .error (.parse_error .cannot_assign_to_a_bsd_or_merged_option) := by
  rw [decode_chars]
  rfl

theorem data_find_append_none {data : List (List Char × List Char)} {n v m : List Char}
    (h1 : data_find data m = none) (h2 : n ≠ m) : data_find (data ++ [(n, v)]) m = none := by
  induction data with
  | nil => simp [data_find, h2]
  | cons x r ih =>
    obtain ⟨k, w⟩ := x
    simp only [List.cons_append, data_find] at h1 ⊢
    split
    · rename_i hk; rw [if_pos hk] at h1; cases h1
    · rename_i hk; rw [if_neg hk] at h1; exact ih h1

/-- The tests of the characters `cs`, each of which resolves to an option
that takes no argument, none of them a ZERO_ONE option seen before: the
characters are accepted, the value "1" is put under the name of each, and the
tests go on after them. -/
theorem decode_chars_flags (p : opt_parser_t) (tail : List Char) :
    ∀ (cs : List Char) (ds : List option_t) (a : Bool) (data : List (List Char × List Char)),
      List.Forall₂ (fun c d => flag_lookup p c = some d ∧ d.assignment = .NO_ASSIGN) cs ds →
      (∀ d ∈ ds, d.number = .ZERO_ONE → data_find data d.name = none) →
      ds.Pairwise (fun d1 d2 => ¬(d2.number = .ZERO_ONE ∧ d2.name = d1.name)) →
      decode_chars p (cs ++ tail) a data
        = decode_chars p tail (a || !cs.isEmpty)
            (data ++ ds.map (fun d => (d.name, default_data))) := by
  intro cs
  induction cs with
  | nil =>
    intro ds a data h2 _ _
    cases h2
    simp
  | cons c cs ih =>
    intro ds a data h2 hfresh hone
    cases h2 with
    | cons hcd hrest =>
      rename_i d ds1
      rw [List.cons_append, decode_chars_cons, hcd.1]
      simp only
      rw [if_pos hcd.2]
      have h1 : ¬(d.number = .ZERO_ONE ∧ data_find data d.name ≠ none) := by
        intro hc
        exact hc.2 (hfresh d (List.mem_cons_self _ _) hc.1)
      rw [if_neg h1]
      rw [List.pairwise_cons] at hone
      rw [ih ds1 true _ hrest ?_ hone.2]
      · simp
      · intro d2 hd2 hz
        refine data_find_append_none (hfresh d2 (List.mem_cons_of_mem _ hd2) hz) ?_
        intro hn
        exact hone.1 d2 hd2 ⟨hz, hn.symm⟩

theorem drop_char_at : ∀ {j : Nat} {t : List Char} {x : Char} {xs : List Char},
    t.drop j = x :: xs → char_at t j = x ∧ t.drop (j + 1) = xs := by
  intro j
  induction j with
  | zero =>
    intro t x xs h
    simp only [List.drop_zero] at h
    rw [h]
    simp [char_at]
  | succ j ih =>
    intro t x xs h
    cases t with
    | nil => simp at h
    | cons y r =>
      simp only [List.drop_succ_cons] at h
      obtain ⟨h1, h2⟩ := ih h
      refine ⟨?_, by simpa using h2⟩
      rw [← h1]
      simp [char_at]

/-- The loop over the first token `t` in bsd or merged mode, when the
characters of `t` from index `j` on are `chars`. -/
theorem decode_first_drop {p : opt_parser_t} {t : List Char} {j : Nat} {x : Char}
    {xs : List Char} (hj : skip_prefix_chars p.is_merged_opt_enabled t = .ok j)
    (hx : t.drop j = x :: xs) (data : List (List Char × List Char)) :
    decode_first p t data = decode_chars p (x :: xs) false data := by
  have hne : t ≠ [] := by
    intro e
    rw [e] at hx
    simp at hx
  obtain ⟨h1, h2⟩ := drop_char_at hx
  unfold decode_first
  rw [if_neg hne, hj]
  simp only
  rw [h1, h2]

theorem get_handle_first {p : opt_parser_t}
    (hmode : p.is_bsd_opt_enabled = true ∨ p.is_merged_opt_enabled = true)
    (t : List Char) (info : opt_info) :
    get_handle p 0 t none info =
      match decode_first p t info.opt_data with
      | .error e => .error e
      | .ok (accepted_first_special, opt_data) =>
        if accepted_first_special then .ok (.continue_with opt_data)
        else .ok (.iter (map_find p.handle_map t)) := by
  rcases hmode with h | h <;> simp [get_handle, h]

/-- C24: in bsd mode, for a non-empty first token `t` without `=` that does
not begin with a prefix character, when the characters of `t` resolve (in
lower case when the parser is not case sensitive) to the options `ds`, one per
character, each with assignment NO_ASSIGN, and no ZERO_ONE option among them
has the name of an earlier one: the parse stores the value "1" under the name
of each option of `ds`, in their order, adds nothing to `rem` for `t`, and
goes on with the second token, whose lookup is the lookup of its handle part
in the handle map. -/
theorem bsd_bundle_records_markers (p : opt_parser_t) (t : List Char) (ds : List option_t)
    (rest : List (List Char))
    (hb : p.is_bsd_opt_enabled = true)
    (hg : ¬(p.is_subcommand_enabled = true ∧ p.mod_count = 0))
    (hne : t ≠ []) (heq : '=' ∉ t) (hpre : IS_PREFIX (char_at t 0) = false)
    (hds : List.Forall₂ (fun c d => flag_lookup p c = some d ∧ d.assignment = .NO_ASSIGN) t ds)
    (hone : ds.Pairwise (fun d1 d2 => ¬(d2.number = .ZERO_ONE ∧ d2.name = d1.name))) :
    p.parse (t :: rest)
      = parse_loop p 1 rest { rem := [], opt_data := ds.map (fun d => (d.name, ['1'])) } ∧
    p.parse [t] = .ok { rem := [], opt_data := ds.map (fun d => (d.name, ['1'])) } ∧
    (∀ (u : List Char) (info : opt_info),
      get_handle p 1 u (find_first_of u '=') info
        = .ok (.iter (map_find p.handle_map (handle_part u)))) := by
  have hdec : decode_first p t [] = .ok (true, ds.map (fun d => (d.name, ['1']))) := by
    obtain ⟨x, xs, hx⟩ := List.exists_cons_of_ne_nil hne
    have hj : skip_prefix_chars p.is_merged_opt_enabled t = .ok 0 := by
      unfold skip_prefix_chars
      simp [hpre]
    rw [decode_first_drop hj (by rw [List.drop_zero]; exact hx), ← hx]
    have := decode_chars_flags p [] t ds false [] (by simpa using hds)
      (by intro d _ _; rfl) hone
    rw [List.append_nil] at this
    rw [this]
    simp [decode_chars, hx, default_data]
  have hloop : ∀ r, p.parse (t :: r)
      = parse_loop p 1 r { rem := [], opt_data := ds.map (fun d => (d.name, ['1'])) } := by
    intro r
    rw [parse_eq_loop hg, parse_loop, find_first_of_not_mem heq, get_handle_first (Or.inl hb)]
    rw [hdec]
    simp
  refine ⟨hloop rest, ?_, fun u info => get_handle_at (Or.inl (by decide)) u info⟩
  rw [hloop []]
  rfl

/-- C24 at the parser in bsd mode with the flags `a` and `b`: the first token
`ab` stores "1" under `all` and under `bee`, and `x` is parsed on its own. -/
theorem bsd_bundle_records_markers_witness :
    parser_bsd.parse (str "ab" :: [str "x"])
      = parse_loop parser_bsd 1 [str "x"]
          { rem := [],
            opt_data := [{ option_t.default with name := str "all" },
                         { option_t.default with name := str "bee" }].map
                          (fun d => (d.name, ['1'])) } ∧
    parser_bsd.parse [str "ab", str "x"]
      = .ok { rem := [str "x"], opt_data := [(str "all", ['1']), (str "bee", ['1'])] } :=
  ⟨(bsd_bundle_records_markers parser_bsd (str "ab")
      [{ option_t.default with name := str "all" }, { option_t.default with name := str "bee" }]
      [str "x"] (by decide!) (by decide!) (by decide!) (by decide!) (by decide!)
      (List.Forall₂.cons ⟨by decide!, by decide!⟩
        (List.Forall₂.cons ⟨by decide!, by decide!⟩ List.Forall₂.nil))
      (by decide!)).1,
   by decide!⟩

end util
